import Mathlib

/-
  Shallow embedding of the rendering core in `tools/src/format.rs`
  (mozsearch).  Pure functions are translated directly; the stateful
  single-pass renderer `format_code` becomes an explicit fold over the
  token stream with a `FormatState` record.  Character offsets are `Nat`
  indices into the input as a `List Char` (the Rust code indexes byte
  offsets into a `&str`; the claims under study are insensitive to the
  byte/char distinction).  External collaborators that are not among the
  sources (the tokenizer in `tokenize.rs`, the `links` auto-linker, the
  blame store in `blame.rs`/`git_ops.rs`, the serde serializers) are
  modelled from the spec at their documented interfaces; every such
  definition carries a doc comment starting with `Modelled from the
  spec:`.
-/

set_option autoImplicit false

namespace Mozsearch

/-- Token kinds consumed by `format_code`.  The tokenizer itself lives in
`tokenize.rs`, an external collaborator; the kinds are exactly those that
`format.rs` matches on, as listed in the token-stream contract of the spec. -/
inductive TokenKind where
  | Identifier (style : Option String)
  | StringLiteral
  | Comment
  | Punctuation
  | PlainText
  | TagName
  | TagAttrName
  | EndTagName
  | RegularExpressionLiteral
  | Newline
deriving DecidableEq, Repr

/-- Lexical token over character offsets of one file.  The Rust struct calls
the second offset `end`, a reserved word in Lean, so it is named `stop` here. -/
structure Token where
  kind : TokenKind
  start : Nat
  stop : Nat
deriving DecidableEq, Repr

/-- Nesting range attached to an analysis record; `0` linenos mean "does not
nest" (`format.rs` comment: empty ranges have 0 linenos for start/end). -/
structure NestingRange where
  start_lineno : Nat
  end_lineno : Nat
deriving DecidableEq, Repr

/-- Modelled from the spec: `AnalysisSource` is defined in
`file_format/analysis.rs`, which is not among the sources at hand.  The fields
are the ones `format.rs` reads: the ordered symbol-id list (first canonical),
the pretty label, the syntax tags, the `no_crossref` flag, the nesting range
and the optional type description and type symbol. -/
structure AnalysisSource where
  sym : List String
  pretty : String
  syntaxKinds : List String
  no_crossref : Bool
  nesting_range : NestingRange
  type_pretty : Option String
  type_sym : Option String
deriving DecidableEq, Repr

/-- Source location of an analysis record: 1-based line, 0-based column. -/
structure Location where
  lineno : Nat
  col_start : Nat
deriving DecidableEq, Repr

/-- An analysis record: a location paired with data, as in
`file_format/analysis.rs` (`WithLocation`). -/
structure WithLocation (α : Type) where
  loc : Location
  data : α
deriving DecidableEq, Repr

/-- Jump-table entry: target path, target line and pretty name. -/
structure Jump where
  path : String
  lineno : Nat
  pretty : String
deriving DecidableEq, Repr

/-- The per-line output of `format_code`: rendered HTML, the symbol opening a
nesting container on this line (if any), and how many containers close after
this line. -/
structure FormattedLine where
  line : String
  sym_starts_nest : Option String
  pop_nest_count : Nat
deriving DecidableEq, Repr

/-- Minimal JSON value tree standing for `serde_json::Value`. -/
inductive Json where
  | str (s : String)
  | num (n : Int)
  | arr (elts : List Json)
  | obj (fields : List (String × Json))

/-- Join a list of strings with a separator, as `Vec::join` does. -/
def joinSep (sep : String) : List String → String
  | [] => ""
  | [s] => s
  | s :: rest => s ++ sep ++ joinSep sep rest

mutual
/-- Compact JSON serialization, standing for `serde_json::to_string`.  String
escaping is elided: the claims under study only ever serialize empty
collections or compare whole tables for containment. -/
def jsonCompact : Json → String
  | .str s => "\"" ++ s ++ "\""
  | .num n => toString n
  | .arr l => "[" ++ jsonArrBody l ++ "]"
  | .obj l => "\x7b" ++ jsonObjBody l ++ "\x7d"

/-- Comma-joined serialization of array elements. -/
def jsonArrBody : List Json → String
  | [] => ""
  | [j] => jsonCompact j
  | j :: rest => jsonCompact j ++ "," ++ jsonArrBody rest

/-- Comma-joined serialization of object fields. -/
def jsonObjBody : List (String × Json) → String
  | [] => ""
  | [p] => "\"" ++ p.1 ++ "\":" ++ jsonCompact p.2
  | p :: rest => "\"" ++ p.1 ++ "\":" ++ jsonCompact p.2 ++ "," ++ jsonObjBody rest
end

/-- Modelled from the spec: `serde_json::to_string_pretty` is an external
serializer selected by the diffable-output flag; its exact layout is
irrelevant to the claims, which all exercise the compact mode. -/
def jsonPretty (j : Json) : String := jsonCompact j

/-- Substring by character offsets, `input[a..b]` in the Rust code. -/
def slice (input : List Char) (a b : Nat) : List Char := (input.take b).drop a

/-- Expansion of one character under `entity_replace`. -/
def escChar (c : Char) : List Char :=
  if c = '&' then ['&', 'a', 'm', 'p', ';']
  else if c = '<' then ['&', 'l', 't', ';'] else [c]

/-- The `entity_replace` helper of `format_code`: replace `&` by `&amp;` and
`<` by `&lt;`.  The Rust code runs the two `replace` passes in sequence; since
the first pass introduces no `<` and the second rewrites only original `<`
characters, a single character-wise expansion is equivalent. -/
def entity_replace (s : List Char) : List Char := (s.map escChar).flatten

/-- The `fixup` helper of `format_code`: replace carriage returns with
U+21A9 (leftwards arrow with hook). -/
def fixup (s : List Char) : List Char :=
  s.map (fun c => if c = '\r' then '↩' else c)

/-- Modelled from the spec: `links::linkify_comment` (module `links`, not
among the sources at hand) is the external auto-linking pass applied to
comment, string and plain text.  The spec constrains only that it rewrites
links inside the text; the identity rewrite is the trivial such pass. -/
def linkify_comment (s : List Char) : List Char := s

/-- Keep-predicate of the newline pop scan: an entry survives when its
`end_lineno - 1` is still strictly beyond the current line
(`format.rs` line 113). -/
def keepPred (cur : Nat) (a : AnalysisSource) : Bool :=
  decide (a.nesting_range.end_lineno - 1 > cur)

/-- Index (from the front) of the last element satisfying `p`, as
`Iterator::rposition` computes on a `Vec`. -/
def rposFrom {α : Type} (p : α → Bool) : List α → Option Nat
  | [] => none
  | a :: rest =>
    match rposFrom p rest with
    | some i => some (i + 1)
    | none => if p a then some 0 else none

/-- The `truncate_to` computation at a newline boundary
(`format.rs` lines 111-117): one past the last kept entry, or 0. -/
def truncPoint (stack : List AnalysisSource) (cur : Nat) : Nat :=
  match rposFrom (keepPred cur) stack with
  | some firstKeep => firstKeep + 1
  | none => 0

/-- Newline-boundary pop of the nesting stack (`format.rs` lines 111-119):
the kept prefix and the pop count.  The bottom of the Rust `Vec` is the front
of the list; `Vec::truncate` keeps the prefix. -/
def popNesting (stack : List AnalysisSource) (cur : Nat) :
    List AnalysisSource × Nat :=
  (stack.take (truncPoint stack cur), stack.length - truncPoint stack cur)

/-- The push decision for one analysis source (`format.rs` lines 179-187):
`false` for an empty range, unconditionally `true` over an empty stack, and
the three-condition check against the current top otherwise. -/
def nestsOf (a : AnalysisSource) (top : Option AnalysisSource) (curLine : Nat) :
    Bool :=
  match a.nesting_range.start_lineno, top with
  | 0, _ => false
  | _ + 1, none => true
  | n + 1, some topA =>
    decide (n + 1 ≥ curLine) && decide (n + 1 ≠ topA.nesting_range.start_lineno)
      && decide (a.nesting_range.end_lineno > curLine + 1)

/-- Modelled from the spec: `AnalysisSource::get_syntax_kind` lives in
`file_format/analysis.rs`; it reports the primary syntax tag of the entry. -/
def get_syntax_kind (a : AnalysisSource) : Option String := a.syntaxKinds.head?

/-- Canonical symbol of a source: `a.sym[0]`.  The Rust code unwraps; the
symbol list is non-empty by the analysis-stream contract, and the default
covers the (contractually absent) empty case. -/
def canonicalSym (a : AnalysisSource) : String := a.sym.headD ("")

/-- The symbol-info JSON object built for a `no_crossref` source
(`format.rs` lines 199-208): optional syntax tag, the type, and the optional
type symbol. -/
def symObjOf (a : AnalysisSource) : Json :=
  Json.obj
    ((match get_syntax_kind a with
      | some k => [(("syntax" : String), Json.str k)]
      | none => []) ++
     [(("type" : String), Json.str (a.type_pretty.getD ("")))] ++
     (match a.type_sym with
      | some t => [(("typesym" : String), Json.str t)]
      | none => []))

/-- Conditional insertion into the symbol-info table (`format.rs` lines
197-209): only `no_crossref` entries carrying type information whose canonical
symbol is not yet present are added.  The `BTreeMap` is modelled as an
association list; lookups see the first binding, and serialization sorts by
key. -/
def updateSymInfo (m : List (String × Json)) (a : AnalysisSource) :
    List (String × Json) :=
  if a.no_crossref ∧ a.type_pretty.isSome ∧ 1 ≤ a.sym.length
      ∧ (m.lookup (canonicalSym a)).isNone then
    m ++ [(canonicalSym a, symObjOf a)]
  else m

/-- One step of the per-source loop of the matched-datum arm
(`format.rs` lines 167-211): push onto the nesting stack when the range is
relevant, record the opening symbol, and feed the symbol-info table. -/
def nestStep (curLine : Nat)
    (acc : List AnalysisSource × Option String × List (String × Json))
    (a : AnalysisSource) :
    List AnalysisSource × Option String × List (String × Json) :=
  let stack := acc.1
  let starts := acc.2.1
  let symInfo := acc.2.2
  if nestsOf a stack.getLast? curLine then
    (stack ++ [a], some (canonicalSym a), updateSymInfo symInfo a)
  else
    (stack, starts, updateSymInfo symInfo a)

/-- Comma-join of symbol ids, as in the `data-symbols` attribute and
`get_joined_syms` (the latter modelled from the spec: it lives in
`file_format/analysis.rs` and joins the symbol list with commas). -/
def joinComma (l : List String) : String := joinSep (",") l

/-- Insert-or-replace on the menu-jump map, matching `HashMap::insert`
semantics on the keys; the Rust map iterates in unspecified order, modelled
here as insertion order (the spec flags this nondeterminism). -/
def insertReplace (m : List (String × Json)) (k : String) (v : Json) :
    List (String × Json) :=
  if (m.lookup k).isSome then
    m.map (fun p => if p.1 = k then (k, v) else p)
  else m ++ [(k, v)]

/-- Menu-jump accumulation for one symbol (`format.rs` lines 236-253): skip
symbols without a jump-table entry and self-jumps, and deduplicate on
`path:lineno`. -/
def menuJumpStep (jumps : List (String × Jump)) (path : String) (curLine : Nat)
    (mj : List (String × Json)) (sym : String) : List (String × Json) :=
  match jumps.lookup sym with
  | none => mj
  | some jump =>
    if jump.path = path ∧ jump.lineno = curLine then mj
    else
      insertReplace mj (jump.path ++ ":" ++ toString jump.lineno)
        (Json.obj [(("sym" : String), Json.str sym),
                   (("pretty" : String), Json.str jump.pretty)])

/-- The matched-datum arm of `format_code` (`format.rs` lines 165-276) for an
`Identifier`/`StringLiteral` token with analysis data: runs the per-source
nesting and symbol-info loop, builds the `data-symbols` list over all entries,
filters `no_crossref` entries, builds deduplicated menu jumps and the item
list, and appends to the occurrence table when items exist.  Returns the new
nesting stack, opening symbol, symbol-info table, occurrence table and the
`data` attribute string. -/
def processMatched (jumps : List (String × Jump)) (path : String)
    (curLine : Nat) (d : List AnalysisSource) (stack : List AnalysisSource)
    (starts : Option String) (symInfo : List (String × Json))
    (genJson : List Json) :
    List AnalysisSource × Option String × List (String × Json) × List Json ×
      String :=
  let folded := d.foldl (nestStep curLine) (stack, starts, symInfo)
  let syms := joinComma (d.flatMap (fun a => a.sym))
  let dFiltered := d.filter (fun item => ! item.no_crossref)
  let menuJumps :=
    (dFiltered.flatMap (fun item => item.sym)).foldl
      (menuJumpStep jumps path curLine) []
  let items := dFiltered.map (fun item =>
    Json.obj [(("sym" : String), Json.str (joinComma item.sym)),
              (("pretty" : String), Json.str item.pretty)])
  let menuVals := menuJumps.map (fun p => p.2)
  if 0 < items.length then
    (folded.1, folded.2.1, folded.2.2,
     genJson ++ [Json.arr [Json.arr menuVals, Json.arr items]],
     "data-symbols=\"" ++ syms ++ "\" data-i=\"" ++ toString genJson.length
       ++ "\" ")
  else
    (folded.1, folded.2.1, folded.2.2, genJson,
     "data-symbols=\"" ++ syms ++ "\" ")

/-- Dispatch of the matched-datum arm on the token kind (`format.rs` lines
164-279): only `Identifier(None)` and `StringLiteral` tokens with a matched
datum carry analysis data; every other case leaves the state unchanged and
yields an empty `data` string. -/
def tokenDataSel (jumps : List (String × Jump)) (path : String) (curLine : Nat)
    (kind : TokenKind) (datum : Option (List AnalysisSource))
    (stack : List AnalysisSource) (starts : Option String)
    (symInfo : List (String × Json)) (genJson : List Json) :
    List AnalysisSource × Option String × List (String × Json) × List Json ×
      String :=
  match kind, datum with
  | .Identifier none, some d | .StringLiteral, some d =>
    processMatched jumps path curLine d stack starts symInfo genJson
  | _, _ => (stack, starts, symInfo, genJson, "")

/-- Style-class selection (`format.rs` lines 281-308). -/
def computeStyle (kind : TokenKind) (datum : Option (List AnalysisSource)) :
    String :=
  match kind with
  | .Identifier none =>
    match datum with
    | some d =>
      let classes := d.flatMap (fun a => a.syntaxKinds.flatMap (fun s =>
        if s = "type" then ["syn_type"]
        else if s = "def" ∨ s = "decl" ∨ s = "idl" then ["syn_def"]
        else []))
      if 0 < classes.length then
        "class=\"" ++ joinSep (" ") classes ++ "\" "
      else ""
    | none => ""
  | .Identifier (some style) => style
  | .StringLiteral => "class=\"syn_string\" "
  | .Comment => "class=\"syn_comment\" "
  | .TagName => "class=\"syn_tag\" "
  | .TagAttrName => "class=\"syn_tag\" "
  | .EndTagName => "class=\"syn_tag\" "
  | .RegularExpressionLiteral => "class=\"syn_regex\" "
  | _ => ""

/-- Ordered analysis stream; the cursor `cur_datum` into the slice is
modelled as the remaining suffix (the cursor only ever advances). -/
abbrev AnalysisList := List (WithLocation (List AnalysisSource))

/-- First cursor advance (`format.rs` lines 143-145): skip records on lines
already passed. -/
def advanceLines : AnalysisList → Nat → AnalysisList
  | [], _ => []
  | w :: rest, curLine =>
    if curLine > w.loc.lineno then advanceLines rest curLine else w :: rest

/-- Second cursor advance (`format.rs` lines 146-151): skip records on the
current line in columns already passed. -/
def advanceCols : AnalysisList → Nat → Nat → AnalysisList
  | [], _, _ => []
  | w :: rest, curLine, column =>
    if curLine = w.loc.lineno ∧ column > w.loc.col_start then
      advanceCols rest curLine column
    else w :: rest

/-- Datum extraction (`format.rs` lines 153-162): the head record matches only
on exact (line, column) equality, and a match consumes it. -/
def takeDatum : AnalysisList → Nat → Nat →
    Option (List AnalysisSource) × AnalysisList
  | [], _, _ => (none, [])
  | w :: rest, curLine, column =>
    if curLine = w.loc.lineno ∧ column = w.loc.col_start then
      (some w.data, rest)
    else (none, w :: rest)

/-- Mutable state of the `format_code` loop. -/
structure FormatState where
  outputLines : List FormattedLine
  output : List Char
  last : Nat
  lineStart : Nat
  curLine : Nat
  analysisRest : AnalysisList
  nestingStack : List AnalysisSource
  startsNest : Option String
  genJson : List Json
  genSymInfo : List (String × Json)

/-- Processing of one token in the main loop of `format_code` (`format.rs` lines
93-335), minus the token-stream assertions, which are hoisted into
`checkTokens` (they depend only on the token list, so checking them up front
is observably equivalent to the in-loop `assert!`s). -/
def formatStep (jumps : List (String × Jump)) (path : String)
    (input : List Char) (st : FormatState) (t : Token) : FormatState :=
  match t.kind with
  | .Newline =>
    let out2 := st.output ++ slice input st.last t.start
    let popped := popNesting st.nestingStack st.curLine
    { st with
      outputLines := st.outputLines ++
        [{ line := (fixup out2).asString, sym_starts_nest := st.startsNest,
           pop_nest_count := popped.2 }],
      output := [],
      last := t.stop,
      lineStart := t.stop,
      curLine := st.curLine + 1,
      nestingStack := popped.1,
      startsNest := none }
  | k =>
    let column := t.start - st.lineStart
    let rest2 := advanceCols (advanceLines st.analysisRest st.curLine)
      st.curLine column
    let taken := takeDatum rest2 st.curLine column
    let datum := taken.1
    let sel := tokenDataSel jumps path st.curLine k datum st.nestingStack
      st.startsNest st.genSymInfo st.genJson
    let style := computeStyle k datum
    let dataStr := sel.2.2.2.2
    match k with
    | .Punctuation | .PlainText =>
      let sanitized0 := entity_replace (slice input st.last t.stop)
      let sanitized :=
        if k = .PlainText then linkify_comment sanitized0 else sanitized0
      { st with
        output := st.output ++ sanitized,
        last := t.stop,
        analysisRest := taken.2,
        nestingStack := sel.1,
        startsNest := sel.2.1,
        genSymInfo := sel.2.2.1,
        genJson := sel.2.2.2.1 }
    | _ =>
      if style ≠ "" ∨ dataStr ≠ "" then
        let sanitized0 := entity_replace (slice input t.start t.stop)
        let sanitized :=
          if k = .Comment ∨ k = .StringLiteral then linkify_comment sanitized0
          else sanitized0
        { st with
          output := st.output ++ entity_replace (slice input st.last t.start)
            ++ ("<span " ++ style ++ dataStr ++ ">").toList
            ++ sanitized ++ "</span>".toList,
          last := t.stop,
          analysisRest := taken.2,
          nestingStack := sel.1,
          startsNest := sel.2.1,
          genSymInfo := sel.2.2.1,
          genJson := sel.2.2.2.1 }
      else
        { st with
          analysisRest := taken.2,
          nestingStack := sel.1,
          startsNest := sel.2.1,
          genSymInfo := sel.2.2.1,
          genJson := sel.2.2.2.1 }

/-- The token-stream assertions of `format_code` (`format.rs` lines 97-99):
each token starts at or after the end of the previous token and ends at or
after its own start. -/
def checkTokensFrom : Nat → List Token → Bool
  | _, [] => true
  | lastPos, t :: rest =>
    decide (lastPos ≤ t.start) && decide (t.start ≤ t.stop)
      && checkTokensFrom t.stop rest

/-- Assertion check over the whole stream, with `last_pos` starting at 0. -/
def checkTokens (tokens : List Token) : Bool := checkTokensFrom 0 tokens

/-- Initial loop state of `format_code`. -/
def initState (analysis : AnalysisList) : FormatState :=
  { outputLines := [], output := [], last := 0, lineStart := 0, curLine := 1,
    analysisRest := analysis, nestingStack := [], startsNest := none,
    genJson := [], genSymInfo := [] }

/-- Key-ordered insertion used to serialize the `BTreeMap`-backed symbol-info
table in key order. -/
def insertSorted (p : String × Json) :
    List (String × Json) → List (String × Json)
  | [] => [p]
  | q :: rest => if p.1 ≤ q.1 then p :: q :: rest else q :: insertSorted p rest

/-- Key-ordered view of the symbol-info association list, matching the
iteration order of the Rust `BTreeMap`. -/
def sortPairs : List (String × Json) → List (String × Json)
  | [] => []
  | p :: rest => insertSorted p (sortPairs rest)

/-- End-of-input handling of `format_code` (`format.rs` lines 337-357): flush
the unterminated final line when non-empty (it closes the entire remaining
stack) and serialize the two JSON side tables; `diffable` selects the pretty
serializer, standing in for the `MOZSEARCH_DIFFABLE` environment toggle (the
spec requires this to become an explicit parameter). -/
def finalizeFormat (input : List Char) (diffable : Bool) (st : FormatState) :
    List FormattedLine × String × String :=
  let out2 := st.output ++ entity_replace (slice input st.last input.length)
  let lines :=
    if 0 < out2.length then
      st.outputLines ++
        [{ line := (fixup out2).asString, sym_starts_nest := st.startsNest,
           pop_nest_count := st.nestingStack.length }]
    else st.outputLines
  let analysisJson :=
    if diffable then jsonPretty (Json.arr st.genJson)
    else jsonCompact (Json.arr st.genJson)
  let symJson :=
    if diffable then jsonPretty (Json.obj (sortPairs st.genSymInfo))
    else jsonCompact (Json.obj (sortPairs st.genSymInfo))
  (lines, analysisJson, symJson)

/-- `format_code` (`format.rs` lines 41-358).  The tokenizer is an external
collaborator selected by the `format` argument in the source; the embedding
takes its output token stream directly.  `none` models the `assert!` panics on
an invalid token stream (no output is produced).  The jump table is an
association list standing for the `UstrMap`. -/
def format_code (jumps : List (String × Jump)) (tokens : List Token)
    (path : String) (input : List Char) (analysis : AnalysisList)
    (diffable : Bool) : Option (List FormattedLine × String × String) :=
  if checkTokens tokens then
    some (finalizeFormat input diffable
      (tokens.foldl (formatStep jumps path input) (initState analysis)))
  else none

/-- Modelled from the spec: `tokenize_plain` lives in `tokenize.rs`, outside
the sources at hand.  Per the token-stream contract it emits ordered,
non-overlapping spans with one designated `Newline` kind delimiting lines;
line content is emitted as `PlainText` spans.  `i` is the scan position and
`ls` the start of the pending segment. -/
def tokenize_plain_go : List Char → Nat → Nat → List Token
  | [], i, ls =>
    if ls < i then [{ kind := .PlainText, start := ls, stop := i }] else []
  | c :: cs, i, ls =>
    if c = '\n' then
      (if ls < i then [{ kind := .PlainText, start := ls, stop := i }]
       else []) ++
      { kind := .Newline, start := i, stop := i + 1 } ::
        tokenize_plain_go cs (i + 1) (i + 1)
    else tokenize_plain_go cs (i + 1) ls

/-- Plain-text tokenization of a whole input. -/
def tokenize_plain (input : List Char) : List Token :=
  tokenize_plain_go input 0 0

/-- Modelled from the spec: a blame record (`blame::LineData`, module
`blame.rs`, outside the sources at hand): revision, path (with `%` as the
stable unchanged marker) and the line number kept as text, since it may fail
to parse when the file name holds a colon (the bug 1670395 guard in
`format.rs`).  The serialized form the Rust code deserializes from is
abstracted away; records are passed around directly. -/
structure LineData where
  rev : String
  path : String
  lineno : String
deriving DecidableEq, Repr

/-- Modelled from the spec: `LineData::is_path_unchanged` reports the stable
"unchanged" path marker. -/
def is_path_unchanged (bl : LineData) : Bool := bl.path = "%"

/-- Modelled from the spec: the narrow blame interface of `git_ops.rs` used
by the skip walk — the ignore predicate on revisions and the
previous-attribution lookup, which returns the previous blame record together
with the resolved previous path; `none` stands for the lookup failures the
walk degrades on (the cache arguments of the Rust call do not change the
resolved value). -/
structure GitOracle where
  should_ignore_for_blame : String → Bool
  find_prev_blame : String → String → Nat → Option (LineData × String)

/-- Digit accumulation for the decimal line-number parse. -/
def digitsToNat : List Char → Nat → Option Nat
  | [], acc => some acc
  | c :: cs, acc =>
    if '0' ≤ c ∧ c ≤ '9' then
      digitsToNat cs (acc * 10 + (c.toNat - ('0').toNat))
    else none

/-- Modelled from the spec: `str::parse::<u32>` on the blame line-number
text — a non-empty all-digit string parses to its decimal value, anything
else (for example a path smuggled in by a colon-bearing file name, the bug
1670395 case) fails.  The u32 overflow edge is not exercised by the claims. -/
def parseLineno (s : String) : Option Nat :=
  match s.toList with
  | [] => none
  | l => digitsToNat l 0

/-- One appended hop of the blame walk: the strings pushed onto the `revs`,
`filespecs` and `blame_linenos` comma lists. -/
structure BlameHop where
  rev : String
  spec : String
  lineno : String
deriving DecidableEq, Repr

/-- Rename bookkeeping of one hop (`format.rs` lines 553-562): emit the
stable `%` marker when the path is net-unchanged (including a move followed
by a move back), otherwise the resolved path. -/
def filespecOf (prev : LineData) (prevPath curPath : String) : String :=
  if is_path_unchanged prev then
    if prevPath = curPath then "%" else prevPath
  else
    if prev.path = curPath then "%" else prev.path

/-- The blame-skip loop of `format_file_data` (`format.rs` lines 519-575):
while the line number parsed and the current revision is ignorable, follow
the previous-attribution lookup, appending one hop per step.  The only
decreasing quantity of the loop is the hop budget `max_ignored_allowed`,
which the recursion here consumes structurally, so termination is by
construction exactly the termination argument of the source.  Returns the appended hops and
whether the truncation marker (an empty trailing slot) was appended because
the budget ran out while the current revision was still ignorable. -/
def blameWalk (git : GitOracle) : Nat → String → String → Option Nat →
    List BlameHop × Bool
  | _, _, _, none => ([], false)
  | fuel, curRev, curPath, some ln =>
    if git.should_ignore_for_blame curRev then
      match fuel with
      | 0 => ([], true)
      | f + 1 =>
        match git.find_prev_blame curRev curPath ln with
        | none => ([], false)
        | some (prev, prevPath) =>
          let hop : BlameHop :=
            { rev := prev.rev, spec := filespecOf prev prevPath curPath,
              lineno := prev.lineno }
          let nextPath :=
            if is_path_unchanged prev then prevPath else prev.path
          let restWalk :=
            blameWalk git f prev.rev nextPath (parseLineno prev.lineno)
          (hop :: restWalk.1, restWalk.2)
    else ([], false)

/-- The comma list accumulated in `revs`: the base revision, one element per
hop, and the empty truncation slot when the budget was exhausted (the bare
`push_str(",")` of `format.rs` line 524). -/
def revsChain (base : String) (hops : List BlameHop) (truncated : Bool) :
    List String :=
  base :: (hops.map (fun h => h.rev) ++ (if truncated then [""] else []))

/-- The comma list accumulated in `filespecs`. -/
def specsChain (base : String) (hops : List BlameHop) (truncated : Bool) :
    List String :=
  base :: (hops.map (fun h => h.spec) ++ (if truncated then [""] else []))

/-- The comma list accumulated in `blame_linenos`. -/
def linenosChain (base : String) (hops : List BlameHop) (truncated : Bool) :
    List String :=
  base :: (hops.map (fun h => h.lineno) ++ (if truncated then [""] else []))

/-- Banding and id state threaded across the per-line loop of
`format_file_data` (`format.rs` lines 452-459). -/
structure BlameState where
  lastRevs : Option String
  lastColor : Bool
  idMap : List (String × Nat)
  nextHumanId : Nat

/-- The rendered blame strip of one output line. -/
structure RenderedBlame where
  revs : String
  filespecs : String
  linenos : String
  color : Bool
  label : String
  humanId : Nat
  dataAttr : String
deriving DecidableEq, Repr

/-- The three comma-joined chains `revs`, `filespecs` and `blame_linenos`
accumulated for one output line (`format.rs` lines 502-575): the base record
alone when no git configuration is present, otherwise the base record
followed by the skip walk (budget 5) started from it. -/
def blameChainsOf (git : Option GitOracle) (path : String) (bl : LineData) :
    String × String × String :=
  let walked :=
    match git with
    | none => ([], false)
    | some g =>
      blameWalk g 5 bl.rev (if is_path_unchanged bl then path else bl.path)
        (parseLineno bl.lineno)
  (joinComma (revsChain bl.rev walked.1 walked.2),
   joinComma (specsChain bl.path walked.1 walked.2),
   joinComma (linenosChain bl.lineno walked.1 walked.2))

/-- Per-line blame rendering (`format.rs` lines 496-599): take the base blame
record, assign or reuse the human-friendly id keyed on the base revision
string, build the chains, and band the color by comparing the `revs` chain
against that of the previous output line; the strip class is `c1` for one band and
`c2` for the other. -/
def renderBlameLine (git : Option GitOracle) (path : String)
    (st : BlameState) (bl : LineData) : BlameState × RenderedBlame :=
  let baseRevs := bl.rev
  let idLook := st.idMap.lookup baseRevs
  let humanId := idLook.getD st.nextHumanId
  let idMap2 :=
    if idLook.isSome then st.idMap else st.idMap ++ [(baseRevs, st.nextHumanId)]
  let nextId2 := if idLook.isSome then st.nextHumanId else st.nextHumanId + 1
  let chains := blameChainsOf git path bl
  let revs := chains.1
  let filespecs := chains.2.1
  let linenos := chains.2.2
  let sameRevAsLast := decide (st.lastRevs = some revs)
  let color := if sameRevAsLast then st.lastColor else !st.lastColor
  let cls := if color then "1" else "2"
  let label :=
    (if sameRevAsLast then "same" else "new") ++ " hash " ++ toString humanId
  let dataAttr :=
    " class=\"blame-strip c" ++ cls ++ "\" data-blame=\"" ++ revs ++ "#"
      ++ filespecs ++ "#" ++ linenos ++ "\" role=\"button\" aria-label=\""
      ++ label ++ "\" aria-expanded=\"false\""
  ({ lastRevs := some revs, lastColor := color, idMap := idMap2,
     nextHumanId := nextId2 },
   { revs := revs, filespecs := filespecs, linenos := linenos, color := color,
     label := label, humanId := humanId, dataAttr := dataAttr })

/-- Fold of the per-line blame rendering over the blame array. -/
def renderBlameAux (git : Option GitOracle) (path : String) :
    BlameState → List LineData → List RenderedBlame
  | _, [] => []
  | st, bl :: rest =>
    let step := renderBlameLine git path st bl
    step.2 :: renderBlameAux git path step.1 rest

/-- Initial banding state: no previous chain, color flag down, first human id
1. -/
def initBlameState : BlameState :=
  { lastRevs := none, lastColor := false, idMap := [], nextHumanId := 1 }

/-- Blame strips for all output lines of one render. -/
def renderBlameLines (git : Option GitOracle) (path : String)
    (lines : List LineData) : List RenderedBlame :=
  renderBlameAux git path initBlameState lines

/-- Log10 bucket of a positive hit count.  The source computes
`(*x as f64).log10().floor() as u32`; for every count an `i32` can hold the
correctly rounded double log10 stays on the same side of every integer as the
exact logarithm, so its floor equals the integer base-10 logarithm used here.
Nonpositive inputs reaching this arm (the float yields NaN, cast to 0 by
`as u32`) map to 0. -/
def covBucket (x : Int) : Nat := if x ≤ 0 then 0 else Nat.log 10 x.toNat

/-- The positive-count arm of the coverage cell (`format.rs` lines 484-489).
`Int.tdiv` truncates toward zero, as Rust `/` does. -/
def covHitCell (x : Int) : String :=
  " class=\"cov-strip cov-hit cov-known cov-log10-" ++ toString (covBucket x)
    ++ "\" role=\"button\" aria-label=\"hit "
    ++ (if x < 1000 then toString x else toString (Int.tdiv x 1000))
    ++ (if x < 1000 then "" else "k")
    ++ "\" data-coverage=\"" ++ toString x ++ "\""

/-- Per-line coverage cell (`format.rs` lines 465-493); an entry missing from
the array maps to the `-4` "no data" sentinel, and any value not matched by
the sentinel arms falls through to the hit arm, as the Rust catch-all does. -/
def coverageCell (coverage : Option (List Int)) (i : Nat) : String :=
  match coverage with
  | none => " class=\"cov-strip cov-no-data\""
  | some cov =>
    let x := cov.getD i (-4)
    if x = -4 then
      " class=\"cov-strip cov-uncovered cov-unknown\" role=\"button\" aria-label=\"missing data\""
    else if x = -3 then
      " class=\"cov-strip cov-miss cov-interpolated\" role=\"button\" aria-label=\"uncovered\""
    else if x = -2 then
      " class=\"cov-strip cov-hit cov-interpolated\" role=\"button\" aria-label=\"uncovered\""
    else if x = -1 then
      " class=\"cov-strip cov-uncovered cov-known\" role=\"button\" aria-label=\"uncovered\""
    else if x = 0 then
      " class=\"cov-strip cov-miss cov-known\" role=\"button\" aria-label=\"miss\" data-coverage=\"0\""
    else covHitCell x

/-- One four-cell output row of `format_file_data` (`format.rs` lines
614-648); `generate_formatted` of the external `output` module emits the
texts in order, so the row is their concatenation. -/
def fileLineRow (lineno : Nat) (line : FormattedLine)
    (covData blameData : String) : String :=
  "<div role=\"row\" id=\"line-" ++ toString lineno
    ++ "\" class=\"source-line-with-number"
    ++ (if line.sym_starts_nest.isSome then " nesting-sticky-line" else "")
    ++ "\">"
    ++ "<div role=\"cell\"><div" ++ covData ++ "></div></div>"
    ++ "<div role=\"cell\"><div" ++ blameData ++ "></div></div>"
    ++ "<div role=\"cell\" class=\"line-number\" data-line-number=\""
    ++ toString lineno ++ "\"></div>"
    ++ "<code role=\"cell\" class=\"source-line\">" ++ line.line
    ++ "\n</code>"
    ++ "</div>"

/-- Per-line emission including the position-sticky containers (`format.rs`
lines 601-655): an opening container div when the line starts a nest, the row
itself, then one closing tag per popped nest; returns the pieces and the new
nesting depth. -/
def fileLinePieces (nestDepth : Nat) (lineno : Nat) (line : FormattedLine)
    (covData blameData : String) : List String × Nat :=
  let opens :=
    match line.sym_starts_nest with
    | some nestSym =>
      ["<div class=\"nesting-container nesting-depth-" ++ toString nestDepth
        ++ "\" data-nesting-sym=\"" ++ nestSym ++ "\">"]
    | none => []
  let depth2 :=
    if line.sym_starts_nest.isSome then nestDepth + 1 else nestDepth
  (opens ++ [fileLineRow lineno line covData blameData]
     ++ List.replicate line.pop_nest_count ("</div>"),
   depth2 - line.pop_nest_count)

/-- The interleaved per-line loop of `format_file_data` (`format.rs` lines
458-656), producing the emitted texts in order.  The blame array is read
index-aligned (`lines[i]`); the spec records a misaligned array as an
unchecked precondition, modelled by an empty default record. -/
def fileRowsAux (git : Option GitOracle) (path : String)
    (coverage : Option (List Int)) (blameLines : Option (List LineData)) :
    Nat → Nat → BlameState → List FormattedLine → List String
  | _, _, _, [] => []
  | i, nestDepth, bst, line :: rest =>
    let covData := coverageCell coverage i
    let stepped :=
      match blameLines with
      | some lines =>
        let r := renderBlameLine git path bst (lines.getD i ⟨"", "", ""⟩)
        (r.1, r.2.dataAttr)
      | none => (bst, " class=\"blame-strip\"")
    let pieces := fileLinePieces nestDepth (i + 1) line covData stepped.2
    pieces.1 ++
      fileRowsAux git path coverage blameLines (i + 1) pieces.2 stepped.1 rest

/-- Pieces written to the output writer; the page-skeleton generators of the
external `output` module are abstracted as plain tags, everything this file
computes is a `text` piece. -/
inductive OutPiece where
  | header
  | breadcrumbs
  | panel
  | infoBoxes
  | text (s : String)
  | footer
deriving DecidableEq, Repr

/-- Emission of `format_file_data` from the file container on (`format.rs`
lines 436-671): the opening container, the interleaved rows, the closing
tag, the script tag carrying the two JSON side tables, and the footer. -/
def format_file_data_pieces (git : Option GitOracle) (path : String)
    (outputLines : List FormattedLine) (analysisJson symJson : String)
    (coverage : Option (List Int)) (blameLines : Option (List LineData)) :
    List OutPiece :=
  [OutPiece.header, OutPiece.breadcrumbs, OutPiece.panel, OutPiece.infoBoxes,
   OutPiece.text ("<div id=\"file\" class=\"file\" role=\"table\">")]
  ++ (fileRowsAux git path coverage blameLines 0 0 initBlameState
        outputLines).map OutPiece.text
  ++ [OutPiece.text ("</div>"),
      OutPiece.text ("<script>var ANALYSIS_DATA = " ++ analysisJson
        ++ "; var SYM_INFO = " ++ symJson ++ ";</script>\n"),
      OutPiece.footer]

/-- Character-level line split used by the diff renderer: `str::split` on
newlines (an empty input yields one empty segment, as in Rust). -/
def splitOnNl : List Char → List (List Char)
  | [] => [[]]
  | c :: cs =>
    let rest := splitOnNl cs
    if c = '\n' then [] :: rest
    else
      match rest with
      | [] => [[c]]
      | seg :: segs => (c :: seg) :: segs

/-- The `split_lines` helper (`format.rs` lines 827-833): split on newlines
and drop a trailing empty segment. -/
def split_lines (s : List Char) : List (List Char) :=
  let parts := splitOnNl s
  if parts.getLast? = some [] then parts.dropLast else parts

/-- Scan for the hunk-header cut point (`format.rs` lines 910-915). -/
def skipToHunkAux : List (List Char) → Option (List (List Char))
  | [] => none
  | l :: rest =>
    if l.head? = some '@' ∧ rest ≠ [] then some rest
    else skipToHunkAux rest

/-- Hunk-header skip of `format_diff`: drop everything through the first line
starting with `@`, provided a line follows it; with no such line the list is
unchanged. -/
def skipToHunk (lines : List (List Char)) : List (List Char) :=
  (skipToHunkAux lines).getD lines

/-- Origin classification of `format_diff` (`format.rs` line 931): a parent
is deemed to include the line when either some parent records a deletion and
the marker of this parent is `-`, or no parent records a deletion and the
marker of this parent is not `+`. -/
def includedInParent (hasMinus : Bool) (c : Char) : Bool :=
  (hasMinus && decide (c = '-')) || (!hasMinus && decide (c ≠ '+'))

/-- The body of the per-parent loop of `format_diff` (`format.rs` lines
929-938) for parent `i`: a parent deemed to include the line advances its
cursor `old_lineno[i]` and supplies its next attribution entry (a later
parent overwrites an earlier one); a parent with no attribution array is the
hard error.  The Rust code indexes `origin[i]` and `lines[old_lineno[i]-1]`
directly; the defaults cover index misalignment, which is outside the diff
contract. -/
def pullStep (blames : List (Option (List LineData))) (origin : List Char)
    (acc : Option LineData × List Nat) (i : Nat) :
    Except String (Option LineData × List Nat) :=
  let hasMinus := origin.contains '-'
  if includedInParent hasMinus (origin.getD i ' ') then
    match blames.getD i none with
    | none => Except.error ("expected blame for '-' line, none found")
    | some parentLines =>
      Except.ok
        (some (parentLines.getD (acc.2.getD i 1 - 1) ⟨"", "", ""⟩),
         acc.2.set i (acc.2.getD i 1 + 1))
  else Except.ok acc

/-- Per-parent attribution pull for one diff line: the loop over
`0..num_parents`. -/
def pullParentBlame (blames : List (Option (List LineData)))
    (origin : List Char) (numParents : Nat) (oldLn0 : List Nat) :
    Except String (Option LineData × List Nat) :=
  (List.range numParents).foldlM (pullStep blames origin)
    ((none : Option LineData), oldLn0)

/-- One reconstructed diff row: the new line number or the `-1` sentinel, the
chosen attribution, the origin prefix and the raw content. -/
structure DiffRow where
  lno : Int
  blame : Option LineData
  origin : List Char
  content : List Char
deriving DecidableEq, Repr

/-- State of the diff reconstruction pass. -/
structure DiffState where
  oldLineno : List Nat
  newLineno : Int
  newLines : List Char
  rows : List DiffRow

/-- Processing of one diff body line (`format.rs` lines 920-950): blank lines
and `\`-marker lines are skipped; otherwise split off the origin prefix, pull
parent attributions, and append the line to the reconstructed text with a
fresh sequential line number exactly when no parent records a deletion. -/
def processDiffLine (numParents : Nat)
    (blames : List (Option (List LineData))) (st : DiffState)
    (line : List Char) : Except String DiffState :=
  if line.length = 0 ∨ line.head? = some '\\' then Except.ok st
  else
    let origin := line.take numParents
    let content := line.drop numParents
    match pullParentBlame blames origin numParents st.oldLineno with
    | Except.error e => Except.error e
    | Except.ok pulled =>
      let appended :=
        if ! origin.contains '-' then
          (st.newLines ++ content ++ ['\n'], st.newLineno, st.newLineno + 1)
        else (st.newLines, (-1 : Int), st.newLineno)
      Except.ok
        { oldLineno := pulled.2, newLineno := appended.2.2,
          newLines := appended.1,
          rows := st.rows ++ [{ lno := appended.2.1, blame := pulled.1,
                                origin := origin, content := content }] }

/-- The reconstruction pass of `format_diff` over all diff body lines, with
each parent cursor starting at line 1 and the new line counter at 1. -/
def reconstructDiff (numParents : Nat)
    (blames : List (Option (List LineData))) (lines : List (List Char)) :
    Except String DiffState :=
  lines.foldlM (processDiffLine numParents blames)
    { oldLineno := List.replicate numParents 1, newLineno := 1,
      newLines := [], rows := [] }

/-- Blame strip of one diff row (`format.rs` lines 1028-1046): single-hop
banding on the resolved revision; a row without blame leaves the banding
state untouched.  Returns the strip attribute, the new last revision and the
new color flag. -/
def diffBlameData (lastRev : String) (lastColor : Bool)
    (blame : Option LineData) : String × String × Bool :=
  match blame with
  | some lineData =>
    let color := if lastRev = lineData.rev then lastColor else !lastColor
    let cls := if color then "1" else "2"
    (" class=\"blame-strip c" ++ cls ++ "\" data-blame=\"" ++ lineData.rev
       ++ "#" ++ lineData.path ++ "#" ++ lineData.lineno
       ++ "\" role=\"button\" aria-label=\"blame\" aria-expanded=\"false\"",
     lineData.rev, color)
  | none => (" class=\"blame-strip\"", lastRev, lastColor)

/-- One output row of the diff renderer (`format.rs` lines 1048-1100): the
reconstructed HTML when a valid new line number exists, else the escaped raw
content. -/
def diffRowHtml (formattedLines : List FormattedLine) (blameData : String)
    (row : DiffRow) : String :=
  let content0 := (entity_replace row.content).asString
  let content :=
    if 0 < row.lno ∧ row.lno.toNat < formattedLines.length + 1 then
      (formattedLines.getD (row.lno.toNat - 1)
        { line := "", sym_starts_nest := none, pop_nest_count := 0 }).line
    else content0
  let originStr := row.origin.asString
  let cls :=
    if row.origin.contains '-' then " minus-line"
    else if row.origin.contains '+' then " plus-line"
    else ""
  "<div role=\"row\" id=\"line-" ++ toString row.lno
    ++ "\" class=\"source-line-with-number\">"
    ++ "<div role=\"cell\" class=\"blame-container\"><div" ++ blameData
    ++ "></div></div>"
    ++ "<div role=\"cell\" class=\"blame-container\"><div" ++ blameData
    ++ "></div></div>"
    ++ "<div role=\"cell\" class=\"line-number\" data-line-number=\""
    ++ (if 0 < row.lno then toString row.lno else "") ++ "\"></div>"
    ++ "<code role=\"cell\" class=\"source-line" ++ cls ++ "\">" ++ originStr
    ++ " " ++ content ++ "\n</code>"
    ++ "</div>"

/-- Banded fold over the reconstructed diff rows. -/
def diffRowsAux (formattedLines : List FormattedLine) :
    String → Bool → List DiffRow → List String
  | _, _, [] => []
  | lastRev, lastColor, row :: rest =>
    let bd := diffBlameData lastRev lastColor row.blame
    diffRowHtml formattedLines bd.1 row
      :: diffRowsAux formattedLines bd.2.1 bd.2.2 rest

/-- The body of `format_diff` once the diff text is in hand (`format.rs`
lines 906-1108), as the ordered list of pieces written to the writer, paired
with the result.  The reconstruction pass runs before anything is written;
writes begin with the page header only after it succeeds, so an error from
the pass leaves the writer untouched.  The reconstructed text is rendered
through `format_code` with no analysis data; the plain token stream stands in
for the language-selected external tokenizer (any stream honouring the token
contract passes the hoisted assertions). -/
def format_diff_body (numParents : Nat)
    (blames : List (Option (List LineData))) (difftxt : List Char)
    (path : String) : List OutPiece × Except String Unit :=
  let lines := skipToHunk (split_lines difftxt)
  match reconstructDiff numParents blames lines with
  | Except.error e => ([], Except.error e)
  | Except.ok st =>
    let formatted :=
      match format_code [] (tokenize_plain st.newLines) path st.newLines []
          false with
      | some r => r.1
      | none => []
    ([OutPiece.header, OutPiece.panel,
      OutPiece.text ("<div id=\"file\" class=\"file\" role=\"table\">")]
      ++ (diffRowsAux formatted ("") false st.rows).map OutPiece.text
      ++ [OutPiece.text ("</div>"), OutPiece.footer],
     Except.ok ())

/-- Length of the text after the last newline, given `pend` characters of the
current line already scanned; used to characterize the final unterminated
line. -/
def tailLineLen : Nat → List Char → Nat
  | pend, [] => pend
  | pend, c :: cs =>
    if c = '\n' then tailLineLen 0 cs else tailLineLen (pend + 1) cs

/-- The text ends with a non-empty unterminated final line: it is non-empty
and its last character is not a newline. -/
def endsWithUnterminatedLine (s : List Char) : Bool :=
  match s.getLast? with
  | none => false
  | some c => decide (c ≠ '\n')

/-- The ordered, non-overlapping, start-before-end token-stream invariant,
threaded exactly like the `last_pos` variable of `format_code`. -/
def tokensWellFormed : Nat → List Token → Prop
  | _, [] => True
  | lastPos, t :: rest =>
    lastPos ≤ t.start ∧ t.start ≤ t.stop ∧ tokensWellFormed t.stop rest

/-- Field lookup inside a JSON object value. -/
def lookupField (j : Json) (k : String) : Option Json :=
  match j with
  | .obj fields => fields.lookup k
  | _ => none

/-- Fixture: a source whose nesting range starts and ends on line 1 — by the
push-rule wording such a too-short range must never push. -/
def shortRangeSrc : AnalysisSource :=
  { sym := ["A"], pretty := "A", syntaxKinds := [], no_crossref := false,
    nesting_range := { start_lineno := 1, end_lineno := 1 },
    type_pretty := none, type_sym := none }

/-- Fixture: an outer scope spanning lines 1-5. -/
def outerSrc : AnalysisSource :=
  { sym := ["outer"], pretty := "outer", syntaxKinds := [],
    no_crossref := false,
    nesting_range := { start_lineno := 1, end_lineno := 5 },
    type_pretty := none, type_sym := none }

/-- Fixture: an overlapping scope pushed above `outerSrc`, spanning lines
2-100. -/
def innerSrc : AnalysisSource :=
  { sym := ["inner"], pretty := "inner", syntaxKinds := [],
    no_crossref := false,
    nesting_range := { start_lineno := 2, end_lineno := 100 },
    type_pretty := none, type_sym := none }

/-- Fixture: a blame oracle that flags every revision as ignorable and always
resolves a previous attribution, driving the walk to its budget. -/
def ignoreAllOracle : GitOracle :=
  { should_ignore_for_blame := fun _ => true,
    find_prev_blame := fun r _ _ =>
      some ({ rev := r ++ "x", path := "%", lineno := "1" }, "q") }

/-- Fixture: a `no_crossref` local carrying type `Foo` under symbol `s1`. -/
def fooTypedSrc : AnalysisSource :=
  { sym := ["s1"], pretty := "v", syntaxKinds := [], no_crossref := true,
    nesting_range := { start_lineno := 0, end_lineno := 0 },
    type_pretty := some "Foo", type_sym := none }

/-- Fixture: a later occurrence of symbol `s1` carrying a different type. -/
def barTypedSrc : AnalysisSource :=
  { sym := ["s1"], pretty := "v", syntaxKinds := [], no_crossref := true,
    nesting_range := { start_lineno := 0, end_lineno := 0 },
    type_pretty := some "Bar", type_sym := none }

/-- Fixture: a token violating `start <= end`. -/
def badToken : Token := { kind := .PlainText, start := 2, stop := 1 }

/-- Fixture: blame record of a line attributed to revision `r`, line 1. -/
def sameRevLine1 : LineData := { rev := "r", path := "%", lineno := "1" }

/-- Fixture: adjacent line attributed to the same revision `r` but line 2 —
its full (revision, path, line) chain differs from that of the previous
line in the line component. -/
def sameRevLine2 : LineData := { rev := "r", path := "%", lineno := "2" }

/-- Fixture: blame record attributed to revision `ra`. -/
def diffRevLine1 : LineData := { rev := "ra", path := "%", lineno := "1" }

/-- Fixture: adjacent blame record attributed to a different revision `rb`. -/
def diffRevLine2 : LineData := { rev := "rb", path := "%", lineno := "2" }

theorem rposFrom_none {α : Type} (p : α → Bool) :
    ∀ l : List α, rposFrom p l = none → ∀ a ∈ l, p a = false := by
  intro l
  induction l with
  | nil => intro _ a ha; cases ha
  | cons x rest ih =>
    intro h a ha
    unfold rposFrom at h
    cases hr : rposFrom p rest with
    | some i => rw [hr] at h; exact absurd h (by simp)
    | none =>
      rw [hr] at h
      by_cases hp : p x = true
      · rw [if_pos hp] at h; exact absurd h (by simp)
      · rcases List.mem_cons.mp ha with rfl | ha
        · exact Bool.not_eq_true _ ▸ by simpa using hp
        · exact ih hr a ha

theorem rposFrom_drop {α : Type} (p : α → Bool) :
    ∀ (l : List α) (a : α),
      a ∈ l.drop (match rposFrom p l with | some i => i + 1 | none => 0) →
      p a = false := by
  intro l
  induction l with
  | nil => intro a ha; simp at ha
  | cons x rest ih =>
    intro a ha
    cases hr : rposFrom p rest with
    | some j =>
      rw [show rposFrom p (x :: rest) = some (j + 1) by
            unfold rposFrom; rw [hr]] at ha
      have ha2 : a ∈ rest.drop (j + 1) := by simpa using ha
      exact ih a (by rw [hr]; exact ha2)
    | none =>
      by_cases hp : p x = true
      · rw [show rposFrom p (x :: rest) = some 0 by
              unfold rposFrom; rw [hr, if_pos hp]] at ha
        have ha2 : a ∈ rest := by simpa using ha
        exact rposFrom_none p rest hr a ha2
      · rw [show rposFrom p (x :: rest) = none by
              unfold rposFrom; rw [hr, if_neg hp]] at ha
        have ha2 : a ∈ x :: rest := by simpa using ha
        rcases List.mem_cons.mp ha2 with rfl | ha3
        · simpa using hp
        · exact rposFrom_none p rest hr a ha3

theorem rposFrom_get {α : Type} (p : α → Bool) :
    ∀ (l : List α) (i : Nat), rposFrom p l = some i →
      ∃ a, l[i]? = some a ∧ p a = true := by
  intro l
  induction l with
  | nil => intro i h; simp [rposFrom] at h
  | cons x rest ih =>
    intro i h
    unfold rposFrom at h
    cases hr : rposFrom p rest with
    | some j =>
      rw [hr] at h
      injection h with h
      subst h
      obtain ⟨a, ha, hp⟩ := ih j hr
      exact ⟨a, by simpa using ha, hp⟩
    | none =>
      rw [hr] at h
      by_cases hp : p x = true
      · rw [if_pos hp] at h
        injection h with h
        subst h
        exact ⟨x, by simp, hp⟩
      · rw [if_neg hp] at h; exact absurd h (by simp)

theorem truncPoint_drop (stack : List AnalysisSource) (cur : Nat) :
    ∀ a ∈ stack.drop (truncPoint stack cur),
      a.nesting_range.end_lineno - 1 ≤ cur := by
  intro a ha
  have h := rposFrom_drop (keepPred cur) stack a (by
    unfold truncPoint at ha; exact ha)
  simp [keepPred] at h
  omega

theorem truncPoint_keeper (stack : List AnalysisSource) (cur : Nat)
    (h : truncPoint stack cur ≠ 0) :
    ∃ a, stack[truncPoint stack cur - 1]? = some a
      ∧ cur < a.nesting_range.end_lineno - 1 := by
  cases hr : rposFrom (keepPred cur) stack with
  | none =>
    have ht : truncPoint stack cur = 0 := by unfold truncPoint; rw [hr]
    exact absurd ht h
  | some i =>
    have ht : truncPoint stack cur = i + 1 := by unfold truncPoint; rw [hr]
    rw [ht]
    obtain ⟨a, ha, hp⟩ := rposFrom_get (keepPred cur) stack i hr
    refine ⟨a, by simpa using ha, ?_⟩
    simpa [keepPred] using hp

/-- C3 (amended): at every newline boundary the entries removed from the
nesting stack are exactly the suffix strictly above the topmost entry whose
`end_lineno - 1` exceeds the current line; every removed entry satisfies
`end_lineno - 1 <= cur_line`, the pop count equals the number removed, and
when anything is kept the boundary entry genuinely extends past the current
line.  (The original claim — that EVERY entry with `end_lineno - 1 <=
cur_line` is removed — fails: an ended entry buried below a live one
survives, see the counterexample.) -/
theorem pop_rule_amended (stack : List AnalysisSource) (cur : Nat) :
    (popNesting stack cur).1 = stack.take (truncPoint stack cur)
    ∧ (popNesting stack cur).2 = stack.length - truncPoint stack cur
    ∧ (∀ a ∈ stack.drop (truncPoint stack cur),
        a.nesting_range.end_lineno - 1 ≤ cur)
    ∧ (truncPoint stack cur ≠ 0 →
        ∃ a, stack[truncPoint stack cur - 1]? = some a
          ∧ cur < a.nesting_range.end_lineno - 1) :=
  ⟨rfl, rfl, truncPoint_drop stack cur, truncPoint_keeper stack cur⟩

/-- Witness for C3 (amended) at the concrete stack [outerSrc, innerSrc]
and line 4, discharging the nonzero-truncation-point hypothesis. -/
theorem pop_rule_amended_witness :
    (popNesting [outerSrc, innerSrc] 4).1
      = [outerSrc, innerSrc].take (truncPoint [outerSrc, innerSrc] 4)
    ∧ (∀ a ∈ [outerSrc, innerSrc].drop (truncPoint [outerSrc, innerSrc] 4),
        a.nesting_range.end_lineno - 1 ≤ 4)
    ∧ (∃ a, [outerSrc, innerSrc][truncPoint [outerSrc, innerSrc] 4 - 1]?
          = some a ∧ 4 < a.nesting_range.end_lineno - 1) :=
  ⟨(pop_rule_amended [outerSrc, innerSrc] 4).1,
   (pop_rule_amended [outerSrc, innerSrc] 4).2.2.1,
   (pop_rule_amended [outerSrc, innerSrc] 4).2.2.2 (by decide)⟩

/-- C3 counterexample: at line 4 with stack [outerSrc, innerSrc], outerSrc
has ended (`end_lineno - 1 = 4 <= 4`) yet the boundary removes nothing —
the pop count is 0 and outerSrc stays on the stack, refuting "every such
entry is popped". -/
theorem pop_rule_counterexample :
    (popNesting [outerSrc, innerSrc] 4).2 = 0
    ∧ outerSrc ∈ (popNesting [outerSrc, innerSrc] 4).1
    ∧ outerSrc.nesting_range.end_lineno - 1 ≤ 4 := by decide

theorem blameWalk_budget_le (git : GitOracle) :
    ∀ (fuel : Nat) (r p : String) (ln : Option Nat),
      (blameWalk git fuel r p ln).1.length ≤ fuel
      ∧ ((blameWalk git fuel r p ln).2 = true →
          (blameWalk git fuel r p ln).1.length = fuel) := by
  intro fuel
  induction fuel with
  | zero =>
    intro r p ln
    cases ln with
    | none => simp [blameWalk]
    | some n =>
      by_cases hig : git.should_ignore_for_blame r
      · simp [blameWalk, hig]
      · simp [blameWalk, hig]
  | succ f ih =>
    intro r p ln
    cases ln with
    | none => simp [blameWalk]
    | some n =>
      by_cases hig : git.should_ignore_for_blame r
      · cases hf : git.find_prev_blame r p n with
        | none => simp [blameWalk, hig, hf]
        | some pr =>
          obtain ⟨prev, prevPath⟩ := pr
          have h1 := ih prev.rev
            (if is_path_unchanged prev then prevPath else prev.path)
            (parseLineno prev.lineno)
          simp only [blameWalk, hig, if_true, hf, List.length_cons]
          constructor
          · omega
          · intro ht
            rw [h1.2 ht]
      · simp [blameWalk, hig]

theorem revsChain_trailing (base : String) (hops : List BlameHop) :
    (revsChain base hops true).getLast? = some "" := by
  show ((base :: hops.map (fun h => h.rev)) ++ [""]).getLast? = some ""
  exact List.getLast?_concat _

theorem specsChain_trailing (base : String) (hops : List BlameHop) :
    (specsChain base hops true).getLast? = some "" := by
  show ((base :: hops.map (fun h => h.spec)) ++ [""]).getLast? = some ""
  exact List.getLast?_concat _

theorem linenosChain_trailing (base : String) (hops : List BlameHop) :
    (linenosChain base hops true).getLast? = some "" := by
  show ((base :: hops.map (fun h => h.lineno)) ++ [""]).getLast? = some ""
  exact List.getLast?_concat _

/-- C4: the blame walk appends at most 5 previous-attribution hops; when it
reports truncation the budget was exhausted (exactly 5 hops were appended)
and the `revs`, `filespecs` and `blame_linenos` chains all end in the empty
truncation slot.  Termination is the structure of `blameWalk` itself, which
recurses on the hop budget exactly as the source loop decrements it. -/
theorem blame_walk_budget (git : GitOracle) (r p : String) (ln : Option Nat) :
    (blameWalk git 5 r p ln).1.length ≤ 5
    ∧ ((blameWalk git 5 r p ln).2 = true →
        (blameWalk git 5 r p ln).1.length = 5
        ∧ ∀ base : String,
            (revsChain base (blameWalk git 5 r p ln).1
              (blameWalk git 5 r p ln).2).getLast? = some ""
            ∧ (specsChain base (blameWalk git 5 r p ln).1
                (blameWalk git 5 r p ln).2).getLast? = some ""
            ∧ (linenosChain base (blameWalk git 5 r p ln).1
                (blameWalk git 5 r p ln).2).getLast? = some "") := by
  refine ⟨(blameWalk_budget_le git 5 r p ln).1, fun ht =>
    ⟨(blameWalk_budget_le git 5 r p ln).2 ht, fun base => ?_⟩⟩
  rw [ht]
  exact ⟨revsChain_trailing base _, specsChain_trailing base _,
    linenosChain_trailing base _⟩

/-- Witness for C4 with an oracle that flags every revision ignorable: the
walk truncates, having appended exactly 5 hops and a trailing empty slot. -/
theorem blame_walk_budget_witness :
    (blameWalk ignoreAllOracle 5 ("r") ("p") (some 1)).2 = true
    ∧ (blameWalk ignoreAllOracle 5 ("r") ("p") (some 1)).1.length = 5
    ∧ (revsChain ("r") (blameWalk ignoreAllOracle 5 ("r") ("p") (some 1)).1
        (blameWalk ignoreAllOracle 5 ("r") ("p") (some 1)).2).getLast?
      = some "" := by
  have ht : (blameWalk ignoreAllOracle 5 ("r") ("p") (some 1)).2 = true := by
    decide
  exact ⟨ht,
    ((blame_walk_budget ignoreAllOracle ("r") ("p") (some 1)).2 ht).1,
    (((blame_walk_budget ignoreAllOracle ("r") ("p") (some 1)).2 ht).2
      ("r")).1⟩

theorem covBucket_pos (x : Int) (h : 0 < x) :
    covBucket x = Nat.log 10 x.toNat := by
  unfold covBucket
  rw [if_neg (by omega)]

theorem coverage_bucket_gen (x : Int) (hx : 0 < x) :
    covBucket x = Nat.log 10 x.toNat
    ∧ (10 : Nat) ^ covBucket x ≤ x.toNat
    ∧ x.toNat < 10 ^ (covBucket x + 1)
    ∧ coverageCell (some [x]) 0 = covHitCell x := by
  refine ⟨covBucket_pos x hx, ?_, ?_, ?_⟩
  · rw [covBucket_pos x hx]
    exact Nat.pow_log_le_self 10 (by omega)
  · rw [covBucket_pos x hx]
    exact Nat.lt_pow_succ_log_self (by norm_num) _
  · unfold coverageCell
    simp only [List.getD_cons_zero]
    rw [if_neg (by omega), if_neg (by omega), if_neg (by omega),
      if_neg (by omega), if_neg (by omega)]

theorem coverage_concrete_five :
    coverageCell (some [5]) 0 =
      " class=\"cov-strip cov-hit cov-known cov-log10-0\" role=\"button\" aria-label=\"hit 5\" data-coverage=\"5\"" := by
  have h5 : covBucket 5 = 0 := by
    rw [covBucket_pos 5 (by norm_num)]
    exact Nat.log_eq_of_pow_le_of_lt_pow (by norm_num) (by norm_num)
  have hc : coverageCell (some [5]) 0 = covHitCell 5 := rfl
  rw [hc]
  unfold covHitCell
  rw [h5]
  rfl

theorem coverage_concrete_k :
    coverageCell (some [1500]) 0 =
      " class=\"cov-strip cov-hit cov-known cov-log10-3\" role=\"button\" aria-label=\"hit 1k\" data-coverage=\"1500\"" := by
  have h15 : covBucket 1500 = 3 := by
    rw [covBucket_pos 1500 (by norm_num)]
    exact Nat.log_eq_of_pow_le_of_lt_pow (by norm_num) (by norm_num)
  have hc : coverageCell (some [1500]) 0 = covHitCell 1500 := rfl
  rw [hc]
  unfold covHitCell
  rw [h15]
  rfl

/-- C10: the hoisted token-stream assertions succeed exactly on streams
satisfying the ordered, non-overlapping, start-before-end invariant
threaded through `last_pos`, and on any violating stream `format_code`
produces no output at all (the `assert!` panic). -/
theorem token_assertions :
    (∀ (tokens : List Token) (lastPos : Nat),
        checkTokensFrom lastPos tokens = true ↔ tokensWellFormed lastPos tokens)
    ∧ ∀ (jumps : List (String × Jump)) (tokens : List Token) (path : String)
        (input : List Char) (analysis : AnalysisList) (diffable : Bool),
        checkTokens tokens = false →
        format_code jumps tokens path input analysis diffable = none := by
  constructor
  · intro tokens
    induction tokens with
    | nil =>
      intro lastPos
      simp [checkTokensFrom, tokensWellFormed]
    | cons t rest ih =>
      intro lastPos
      simp [checkTokensFrom, tokensWellFormed, ih, and_assoc]
  · intro jumps tokens path input analysis diffable h
    unfold format_code
    simp [h]

/-- C2 (code bug): a nesting range spanning only line 1 (`{1,1}`, too short
to ever display as position sticky) is nevertheless pushed when the stack
is empty — the rendered line records `sym_starts_nest = some "A"` and pops
it again at its own newline — because the empty-stack arm of the push
decision skips the start/extent checks stated in the comment directly above
it in the source. -/
theorem nesting_push_empty_stack_bug :
    (format_code [] [{ kind := .Identifier none, start := 0, stop := 1 },
                     { kind := .Newline, start := 1, stop := 2 }]
        ("p") (("A\n").toList)
        [{ loc := { lineno := 1, col_start := 0 }, data := [shortRangeSrc] }]
        false).map
        (fun r => r.1.map (fun l => (l.sym_starts_nest, l.pop_nest_count)))
      = some [(some ("A"), 1)]
    ∧ nestsOf shortRangeSrc none 1 = true
    ∧ shortRangeSrc.nesting_range.end_lineno ≤ 1 + 1 := by decide

theorem renderBlameLine_state (git : Option GitOracle) (path : String)
    (st : BlameState) (bl : LineData) :
    (renderBlameLine git path st bl).1.lastRevs
      = some (renderBlameLine git path st bl).2.revs
    ∧ (renderBlameLine git path st bl).1.lastColor
      = (renderBlameLine git path st bl).2.color :=
  ⟨rfl, rfl⟩

theorem renderBlameLine_revs (git : Option GitOracle) (path : String)
    (st : BlameState) (bl : LineData) :
    (renderBlameLine git path st bl).2.revs = (blameChainsOf git path bl).1 :=
  rfl

theorem renderBlameLine_band (git : Option GitOracle) (path : String)
    (st : BlameState) (bl : LineData) (prevRevs : String) (prevColor : Bool)
    (h1 : st.lastRevs = some prevRevs) (h2 : st.lastColor = prevColor) :
    ((renderBlameLine git path st bl).2.revs = prevRevs →
        (renderBlameLine git path st bl).2.color = prevColor
        ∧ (renderBlameLine git path st bl).2.label
          = "same hash "
            ++ toString (renderBlameLine git path st bl).2.humanId)
    ∧ ((renderBlameLine git path st bl).2.revs ≠ prevRevs →
        (renderBlameLine git path st bl).2.color = !prevColor
        ∧ (renderBlameLine git path st bl).2.label
          = "new hash "
            ++ toString (renderBlameLine git path st bl).2.humanId) := by
  constructor
  · intro hEq
    rw [renderBlameLine_revs] at hEq
    simp only [renderBlameLine, h1, hEq]
    simp [h2]
  · intro hNe
    rw [renderBlameLine_revs] at hNe
    have hNe2 : ¬ prevRevs = (blameChainsOf git path bl).1 :=
      fun hh => hNe hh.symm
    simp only [renderBlameLine, h1]
    simp [hNe2, h2]

theorem renderBlameAux_adjacent (git : Option GitOracle) (path : String) :
    ∀ (lines : List LineData) (st : BlameState) (i : Nat)
      (r1 r2 : RenderedBlame),
      (renderBlameAux git path st lines)[i]? = some r1 →
      (renderBlameAux git path st lines)[i + 1]? = some r2 →
      ((r2.revs = r1.revs → r2.color = r1.color
          ∧ r2.label = "same hash " ++ toString r2.humanId)
       ∧ (r2.revs ≠ r1.revs → r2.color = !r1.color
          ∧ r2.label = "new hash " ++ toString r2.humanId)) := by
  intro lines
  induction lines with
  | nil =>
    intro st i r1 r2 h1 h2
    simp [renderBlameAux] at h1
  | cons bl rest ih =>
    intro st i r1 r2 h1 h2
    have hstep : renderBlameAux git path st (bl :: rest)
        = (renderBlameLine git path st bl).2
          :: renderBlameAux git path (renderBlameLine git path st bl).1 rest :=
      rfl
    rw [hstep] at h1 h2
    cases i with
    | zero =>
      simp only [List.getElem?_cons_zero, Option.some.injEq] at h1
      cases rest with
      | nil =>
        simp [renderBlameAux] at h2
      | cons bl2 rest2 =>
        have hstep2 :
            renderBlameAux git path (renderBlameLine git path st bl).1
                (bl2 :: rest2)
              = (renderBlameLine git path
                  (renderBlameLine git path st bl).1 bl2).2
                :: renderBlameAux git path
                  (renderBlameLine git path
                    (renderBlameLine git path st bl).1 bl2).1 rest2 := rfl
        rw [hstep2] at h2
        simp only [List.getElem?_cons_succ, List.getElem?_cons_zero,
          Option.some.injEq] at h2
        subst h1
        subst h2
        have hs := renderBlameLine_state git path st bl
        exact renderBlameLine_band git path
          (renderBlameLine git path st bl).1 bl2 _ _ hs.1 hs.2
    | succ j =>
      simp only [List.getElem?_cons_succ] at h1 h2
      exact ih (renderBlameLine git path st bl).1 j r1 r2 h1 h2

/-- C5 (amended): two adjacent output lines share a color band with a
"same" label exactly when their `revs` chains (the revision components of
the blame chains) are equal, and the band flips with a "new" label exactly
when the `revs` chains differ.  (The original claim compared the full
revision/path/line chains; the code compares only `revs`, see the
counterexample.) -/
theorem blame_band_rev_chain (git : Option GitOracle) (path : String)
    (lines : List LineData) (i : Nat) (r1 r2 : RenderedBlame)
    (h1 : (renderBlameLines git path lines)[i]? = some r1)
    (h2 : (renderBlameLines git path lines)[i + 1]? = some r2) :
    (r2.revs = r1.revs → r2.color = r1.color
      ∧ r2.label = "same hash " ++ toString r2.humanId)
    ∧ (r2.revs ≠ r1.revs → r2.color = !r1.color
      ∧ r2.label = "new hash " ++ toString r2.humanId) :=
  renderBlameAux_adjacent git path lines initBlameState i r1 r2 h1 h2

/-- C5 counterexample: two adjacent lines attributed to the same revision
but different line numbers — their full (revision, path, line) chains
differ in the line component, yet the second line keeps the band of the first
line (both `true`) and is labelled "same", refuting "a chain change always
flips the band". -/
theorem blame_band_counterexample :
    (renderBlameLines none ("p") [sameRevLine1, sameRevLine2]).map
        (fun r => (r.revs, r.filespecs, r.linenos, r.color, r.label))
      = [("r", "%", "1", true, "new hash 1"),
         ("r", "%", "2", true, "same hash 1")] := by decide

/-- Witness for C5 (amended) on two adjacent lines with different
revisions, discharging both index hypotheses and the inequality. -/
theorem blame_band_rev_chain_witness :
    ∃ r1 r2,
      (renderBlameLines none ("p") [diffRevLine1, diffRevLine2])[0]?
        = some r1
      ∧ (renderBlameLines none ("p") [diffRevLine1, diffRevLine2])[1]?
        = some r2
      ∧ r2.revs ≠ r1.revs
      ∧ r2.color = !r1.color
      ∧ r2.label = "new hash " ++ toString r2.humanId := by
  refine ⟨_, _, rfl, rfl, ?_, ?_, ?_⟩
  · decide
  · exact ((blame_band_rev_chain none ("p") [diffRevLine1, diffRevLine2] 0
      _ _ rfl rfl).2 (by decide)).1
  · exact ((blame_band_rev_chain none ("p") [diffRevLine1, diffRevLine2] 0
      _ _ rfl rfl).2 (by decide)).2

/-- A parent deemed to include the line but lacking an attribution array
makes the per-parent step fail with the typed error. -/
theorem pullStep_error_of_bad (blames : List (Option (List LineData)))
    (origin : List Char) (acc : Option LineData × List Nat) (i : Nat)
    (hinc : includedInParent (origin.contains '-') (origin.getD i ' ') = true)
    (habs : blames.getD i none = none) :
    pullStep blames origin acc i
      = Except.error ("expected blame for '-' line, none found") := by
  unfold pullStep
  rw [if_pos hinc, habs]

theorem pullStep_cases (blames : List (Option (List LineData)))
    (origin : List Char) (acc : Option LineData × List Nat) (i : Nat) :
    pullStep blames origin acc i
        = Except.error ("expected blame for '-' line, none found")
    ∨ ∃ v, pullStep blames origin acc i = Except.ok v := by
  by_cases hinc :
      includedInParent (origin.contains '-') (origin.getD i ' ') = true
  · cases habs : blames.getD i none with
    | none =>
      left
      unfold pullStep
      rw [if_pos hinc, habs]
    | some parentLines =>
      right
      refine ⟨(some (parentLines.getD (acc.2.getD i 1 - 1) ⟨"", "", ""⟩),
        acc.2.set i (acc.2.getD i 1 + 1)), ?_⟩
      unfold pullStep
      rw [if_pos hinc, habs]
  · right
    refine ⟨acc, ?_⟩
    unfold pullStep
    rw [if_neg hinc]

theorem foldlM_error_or_ok {α β : Type} (f : β → α → Except String β)
    (msg : String)
    (hf : ∀ b a, f b a = Except.error msg ∨ ∃ v, f b a = Except.ok v) :
    ∀ (l : List α) (b : β),
      l.foldlM f b = Except.error msg ∨ ∃ v, l.foldlM f b = Except.ok v := by
  intro l
  induction l with
  | nil => intro b; exact Or.inr ⟨b, rfl⟩
  | cons x rest ih =>
    intro b
    rcases hf b x with he | ⟨v, hv⟩
    · left
      rw [List.foldlM_cons, he]
      rfl
    · rw [List.foldlM_cons, hv]
      simpa [Bind.bind, Except.bind] using ih v

theorem foldlM_ok_all {α β : Type} (f : β → α → Except String β) :
    ∀ (l : List α) (b v : β), l.foldlM f b = Except.ok v →
      ∀ a ∈ l, ∃ b2 v2, f b2 a = Except.ok v2 := by
  intro l
  induction l with
  | nil => intro b v h a ha; cases ha
  | cons x rest ih =>
    intro b v h a ha
    rw [List.foldlM_cons] at h
    cases hx : f b x with
    | error e =>
      rw [hx] at h
      exact absurd h (by simp [Bind.bind, Except.bind])
    | ok b2 =>
      rw [hx] at h
      simp only [Bind.bind, Except.bind] at h
      rcases List.mem_cons.mp ha with rfl | ha2
      · exact ⟨b, b2, hx⟩
      · exact ih b2 v h a ha2

theorem pullParentBlame_error (blames : List (Option (List LineData)))
    (origin : List Char) (numParents : Nat) (oldLn : List Nat)
    (hbad : ∃ i, i < numParents
        ∧ includedInParent (origin.contains '-') (origin.getD i ' ') = true
        ∧ blames.getD i none = none) :
    pullParentBlame blames origin numParents oldLn
      = Except.error ("expected blame for '-' line, none found") := by
  obtain ⟨i, hi, hinc, habs⟩ := hbad
  rcases foldlM_error_or_ok (pullStep blames origin) _
      (fun b a => pullStep_cases blames origin b a)
      (List.range numParents) ((none : Option LineData), oldLn) with
    he | ⟨v, hv⟩
  · exact he
  · exfalso
    obtain ⟨b2, v2, hok⟩ := foldlM_ok_all (pullStep blames origin)
      (List.range numParents) _ v hv i (List.mem_range.mpr hi)
    rw [pullStep_error_of_bad blames origin b2 i hinc habs] at hok
    cases hok

theorem processDiffLine_error (numParents : Nat)
    (blames : List (Option (List LineData))) (st : DiffState)
    (line : List Char)
    (hskip : ¬ (line.length = 0 ∨ line.head? = some '\\'))
    (hbad : ∃ i, i < numParents
        ∧ includedInParent ((line.take numParents).contains '-')
            ((line.take numParents).getD i ' ') = true
        ∧ blames.getD i none = none) :
    processDiffLine numParents blames st line
      = Except.error ("expected blame for '-' line, none found") := by
  unfold processDiffLine
  rw [if_neg hskip]
  simp only [pullParentBlame_error blames (line.take numParents) numParents
    st.oldLineno hbad]

theorem processDiffLine_cases (numParents : Nat)
    (blames : List (Option (List LineData))) (st : DiffState)
    (line : List Char) :
    processDiffLine numParents blames st line
        = Except.error ("expected blame for '-' line, none found")
    ∨ ∃ v, processDiffLine numParents blames st line = Except.ok v := by
  cases hres : processDiffLine numParents blames st line with
  | ok v => exact Or.inr ⟨v, rfl⟩
  | error e =>
    left
    unfold processDiffLine at hres
    by_cases hskip : line.length = 0 ∨ line.head? = some '\\'
    · rw [if_pos hskip] at hres
      cases hres
    · rw [if_neg hskip] at hres
      rcases foldlM_error_or_ok (pullStep blames (line.take numParents)) _
          (fun b a => pullStep_cases blames (line.take numParents) b a)
          (List.range numParents)
          ((none : Option LineData), st.oldLineno) with he | ⟨v, hv⟩
      · have he2 : pullParentBlame blames (line.take numParents) numParents
            st.oldLineno
            = Except.error ("expected blame for '-' line, none found") := he
        simp only [he2] at hres
        injection hres with h
        rw [h]
      · have hv2 : pullParentBlame blames (line.take numParents) numParents
            st.oldLineno = Except.ok v := hv
        simp only [hv2] at hres
        cases hres

theorem reconstructDiff_error (numParents : Nat)
    (blames : List (Option (List LineData))) (lines : List (List Char))
    (hbad : ∃ line ∈ lines,
        ¬ (line.length = 0 ∨ line.head? = some '\\')
        ∧ ∃ i, i < numParents
            ∧ includedInParent ((line.take numParents).contains '-')
                ((line.take numParents).getD i ' ') = true
            ∧ blames.getD i none = none) :
    reconstructDiff numParents blames lines
      = Except.error ("expected blame for '-' line, none found") := by
  obtain ⟨line, hmem, hskip, hibad⟩ := hbad
  rcases foldlM_error_or_ok (processDiffLine numParents blames) _
      (fun b a => processDiffLine_cases numParents blames b a) lines
      { oldLineno := List.replicate numParents 1, newLineno := 1,
        newLines := [], rows := [] } with he | ⟨v, hv⟩
  · exact he
  · exfalso
    obtain ⟨b2, v2, hok⟩ := foldlM_ok_all (processDiffLine numParents blames)
      lines _ v hv line hmem
    rw [processDiffLine_error numParents blames b2 line hskip hibad] at hok
    cases hok

/-- C7: when some reconstructed diff line is deemed included in a parent
whose attribution array is absent, the whole diff render returns the typed
error `expected blame for \x27-\x27 line, none found`, and the emitted
output piece list is empty — nothing was written before the failure. -/
theorem diff_missing_blame_aborts (numParents : Nat)
    (blames : List (Option (List LineData))) (difftxt : List Char)
    (path : String)
    (hbad : ∃ line ∈ skipToHunk (split_lines difftxt),
        ¬ (line.length = 0 ∨ line.head? = some '\\')
        ∧ ∃ i, i < numParents
            ∧ includedInParent ((line.take numParents).contains '-')
                ((line.take numParents).getD i ' ') = true
            ∧ blames.getD i none = none) :
    format_diff_body numParents blames difftxt path
      = ([], Except.error ("expected blame for '-' line, none found")) := by
  unfold format_diff_body
  simp only [reconstructDiff_error numParents blames
    (skipToHunk (split_lines difftxt)) hbad]

/-- Witness for C7 on a one-parent diff with a deletion line and no
attribution array. -/
theorem diff_missing_blame_aborts_witness :
    (∃ line ∈ skipToHunk (split_lines (("@@ -1 +1\n-x\n").toList)),
        ¬ (line.length = 0 ∨ line.head? = some '\\')
        ∧ ∃ i, i < 1
            ∧ includedInParent ((line.take 1).contains '-')
                ((line.take 1).getD i ' ') = true
            ∧ ([none] : List (Option (List LineData))).getD i none = none)
    ∧ format_diff_body 1 [none] (("@@ -1 +1\n-x\n").toList) ("p")
      = ([], Except.error ("expected blame for '-' line, none found")) := by
  have hbad : ∃ line ∈ skipToHunk (split_lines (("@@ -1 +1\n-x\n").toList)),
      ¬ (line.length = 0 ∨ line.head? = some '\\')
      ∧ ∃ i, i < 1
          ∧ includedInParent ((line.take 1).contains '-')
              ((line.take 1).getD i ' ') = true
          ∧ ([none] : List (Option (List LineData))).getD i none = none :=
    ⟨['-', 'x'], by decide, by decide, 0, by decide, by decide, rfl⟩
  exact ⟨hbad, diff_missing_blame_aborts 1 [none] _ ("p") hbad⟩

theorem tokenDataSel_none (jumps : List (String × Jump)) (path : String)
    (curLine : Nat) (k : TokenKind) (stack : List AnalysisSource)
    (starts : Option String) (symInfo : List (String × Json))
    (genJson : List Json) :
    tokenDataSel jumps path curLine k none stack starts symInfo genJson
      = (stack, starts, symInfo, genJson, "") := by
  cases k with
  | Identifier style => cases style <;> rfl
  | StringLiteral => rfl
  | Comment => rfl
  | Punctuation => rfl
  | PlainText => rfl
  | TagName => rfl
  | TagAttrName => rfl
  | EndTagName => rfl
  | RegularExpressionLiteral => rfl
  | Newline => rfl

theorem formatStep_empty_analysis (jumps : List (String × Jump))
    (path : String) (input : List Char) (st : FormatState) (t : Token)
    (h1 : st.analysisRest = []) (h2 : st.genJson = [])
    (h3 : st.genSymInfo = []) :
    (formatStep jumps path input st t).analysisRest = []
    ∧ (formatStep jumps path input st t).genJson = []
    ∧ (formatStep jumps path input st t).genSymInfo = [] := by
  rcases t with ⟨k, ts, te⟩
  cases k <;>
    simp only [formatStep, h1, advanceLines, advanceCols, takeDatum,
      tokenDataSel_none, h2, h3] <;>
    first
      | exact ⟨rfl, rfl, rfl⟩
      | exact ⟨trivial, trivial, trivial⟩
      | (split <;> exact ⟨rfl, rfl, rfl⟩)

theorem foldl_formatStep_empty (jumps : List (String × Jump)) (path : String)
    (input : List Char) :
    ∀ (tokens : List Token) (st : FormatState),
      st.analysisRest = [] → st.genJson = [] → st.genSymInfo = [] →
      (tokens.foldl (formatStep jumps path input) st).analysisRest = []
      ∧ (tokens.foldl (formatStep jumps path input) st).genJson = []
      ∧ (tokens.foldl (formatStep jumps path input) st).genSymInfo = [] := by
  intro tokens
  induction tokens with
  | nil => intro st h1 h2 h3; exact ⟨h1, h2, h3⟩
  | cons t rest ih =>
    intro st h1 h2 h3
    have hstep := formatStep_empty_analysis jumps path input st t h1 h2 h3
    exact ih (formatStep jumps path input st t) hstep.1 hstep.2.1 hstep.2.2

/-- C8: with an empty analysis list and an empty jump table, `format_code`
yields the compact occurrence table `[]` and symbol-info table `{}` (for
any token stream passing the stream assertions), no token ever receives a
`data-symbols`/`data-i` attribute (the datum selector leaves the state
untouched and returns the empty attribute string), an `Identifier` without
inline style gets no class, and an `Identifier` with an inline style is
styled by exactly that style. -/
theorem empty_analysis_render :
    (∀ (tokens : List Token) (path : String) (input : List Char),
        checkTokens tokens = true →
        ∃ lines, format_code [] tokens path input [] false
          = some (lines, "[]", "\x7b\x7d"))
    ∧ (∀ (jumps : List (String × Jump)) (path : String) (curLine : Nat)
          (k : TokenKind) (stack : List AnalysisSource)
          (starts : Option String) (symInfo : List (String × Json))
          (genJson : List Json),
        tokenDataSel jumps path curLine k none stack starts symInfo genJson
          = (stack, starts, symInfo, genJson, ""))
    ∧ computeStyle (.Identifier none) none = ""
    ∧ ∀ (s : String) (d : Option (List AnalysisSource)),
        computeStyle (.Identifier (some s)) d = s := by
  refine ⟨?_, tokenDataSel_none, rfl, fun s d => rfl⟩
  intro tokens path input hck
  have hfc : format_code [] tokens path input [] false
      = some (finalizeFormat input false
          (tokens.foldl (formatStep [] path input) (initState []))) := by
    unfold format_code
    rw [if_pos hck]
  have hST := foldl_formatStep_empty [] path input tokens (initState [])
    rfl rfl rfl
  refine ⟨(finalizeFormat input false
    (tokens.foldl (formatStep [] path input) (initState []))).1, ?_⟩
  rw [hfc]
  have hsplit : finalizeFormat input false
      (tokens.foldl (formatStep [] path input) (initState []))
      = ((finalizeFormat input false
          (tokens.foldl (formatStep [] path input) (initState []))).1,
         jsonCompact (Json.arr
           (tokens.foldl (formatStep [] path input) (initState [])).genJson),
         jsonCompact (Json.obj (sortPairs
           (tokens.foldl (formatStep [] path input)
             (initState [])).genSymInfo))) := rfl
  rw [hsplit, hST.2.1, hST.2.2]
  simp [jsonCompact, jsonArrBody, jsonObjBody, sortPairs]

/-- Witness for C8 on a one-identifier token stream. -/
theorem empty_analysis_render_witness :
    checkTokens [{ kind := .Identifier none, start := 0, stop := 1 }] = true
    ∧ ∃ lines,
        format_code [] [{ kind := .Identifier none, start := 0, stop := 1 }]
          ("p") (['x']) [] false = some (lines, "[]", "\x7b\x7d") :=
  ⟨by decide,
   empty_analysis_render.1 [{ kind := .Identifier none, start := 0, stop := 1 }]
     ("p") (['x']) (by decide)⟩

theorem lookup_append_left {β : Type} (l1 l2 : List (String × β)) (s : String)
    (v : β) (h : l1.lookup s = some v) : (l1 ++ l2).lookup s = some v := by
  induction l1 with
  | nil => cases h
  | cons a l ih =>
    rw [List.cons_append]
    simp only [List.lookup] at h ⊢
    cases hb : (s == a.1) with
    | true => rw [hb] at h; simpa [hb] using h
    | false => rw [hb] at h; simpa [hb] using ih h

theorem lookup_append_absent {β : Type} (l : List (String × β)) (s : String)
    (v : β) (h : l.lookup s = none) : (l ++ [(s, v)]).lookup s = some v := by
  induction l with
  | nil => simp [List.lookup]
  | cons a l ih =>
    rw [List.cons_append]
    simp only [List.lookup] at h ⊢
    cases hb : (s == a.1) with
    | true => rw [hb] at h; cases h
    | false => rw [hb] at h; simpa [hb] using ih h

theorem updateSymInfo_preserve (m : List (String × Json)) (a : AnalysisSource)
    (s : String) (v : Json) (h : m.lookup s = some v) :
    (updateSymInfo m a).lookup s = some v := by
  unfold updateSymInfo
  split
  · exact lookup_append_left m _ s v h
  · exact h

theorem foldl_updateSymInfo_preserve :
    ∀ (l : List AnalysisSource) (m : List (String × Json)) (s : String)
      (v : Json), m.lookup s = some v →
      (l.foldl updateSymInfo m).lookup s = some v := by
  intro l
  induction l with
  | nil => intro m s v h; exact h
  | cons a rest ih =>
    intro m s v h
    exact ih (updateSymInfo m a) s v (updateSymInfo_preserve m a s v h)

theorem updateSymInfo_insert (m : List (String × Json)) (a : AnalysisSource)
    (ty s : String) (hn : a.no_crossref = true) (ht : a.type_pretty = some ty)
    (hs : a.sym.head? = some s) (habs : (m.lookup s).isNone) :
    (updateSymInfo m a).lookup s = some (symObjOf a) := by
  obtain ⟨tl, htl⟩ : ∃ tl, a.sym = s :: tl := by
    cases hsym : a.sym with
    | nil => rw [hsym] at hs; cases hs
    | cons x tl =>
      rw [hsym] at hs
      simp at hs
      exact ⟨tl, by rw [hs]⟩
  have hcan : canonicalSym a = s := by
    unfold canonicalSym
    rw [htl]
    rfl
  have hnone : m.lookup s = none := by
    cases hl : m.lookup s with
    | none => rfl
    | some v => rw [hl] at habs; cases habs
  unfold updateSymInfo
  rw [if_pos ⟨hn, by rw [ht]; rfl, by rw [htl]; simp, by rw [hcan, hnone]; rfl⟩]
  rw [hcan]
  exact lookup_append_absent m s (symObjOf a) hnone

theorem nestStep_symInfo (curLine : Nat)
    (acc : List AnalysisSource × Option String × List (String × Json))
    (a : AnalysisSource) :
    (nestStep curLine acc a).2.2 = updateSymInfo acc.2.2 a := by
  unfold nestStep
  dsimp only
  split <;> rfl

theorem foldl_nestStep_symInfo (curLine : Nat) :
    ∀ (d : List AnalysisSource)
      (acc : List AnalysisSource × Option String × List (String × Json)),
      (d.foldl (nestStep curLine) acc).2.2 = d.foldl updateSymInfo acc.2.2 := by
  intro d
  induction d with
  | nil => intro acc; rfl
  | cons a rest ih =>
    intro acc
    rw [List.foldl_cons, List.foldl_cons, ih, nestStep_symInfo]

theorem processMatched_symInfo (jumps : List (String × Jump)) (path : String)
    (curLine : Nat) (d : List AnalysisSource) (stack : List AnalysisSource)
    (starts : Option String) (symInfo : List (String × Json))
    (genJson : List Json) :
    (processMatched jumps path curLine d stack starts symInfo genJson).2.2.1
      = d.foldl updateSymInfo symInfo := by
  unfold processMatched
  dsimp only
  split
  · exact foldl_nestStep_symInfo curLine d (stack, starts, symInfo)
  · exact foldl_nestStep_symInfo curLine d (stack, starts, symInfo)

theorem tokenDataSel_symInfo_preserve (jumps : List (String × Jump))
    (path : String) (curLine : Nat) (k : TokenKind)
    (datum : Option (List AnalysisSource)) (stack : List AnalysisSource)
    (starts : Option String) (symInfo : List (String × Json))
    (genJson : List Json) (s : String) (v : Json)
    (h : symInfo.lookup s = some v) :
    (tokenDataSel jumps path curLine k datum stack starts symInfo
      genJson).2.2.1.lookup s = some v := by
  cases k with
  | Identifier style =>
    cases style with
    | none =>
      cases datum with
      | none => exact h
      | some d =>
        rw [show (tokenDataSel jumps path curLine (.Identifier none) (some d)
              stack starts symInfo genJson)
            = processMatched jumps path curLine d stack starts symInfo genJson
            from rfl]
        rw [processMatched_symInfo]
        exact foldl_updateSymInfo_preserve d symInfo s v h
    | some sty => cases datum <;> exact h
  | StringLiteral =>
    cases datum with
    | none => exact h
    | some d =>
      rw [show (tokenDataSel jumps path curLine .StringLiteral (some d)
            stack starts symInfo genJson)
          = processMatched jumps path curLine d stack starts symInfo genJson
          from rfl]
      rw [processMatched_symInfo]
      exact foldl_updateSymInfo_preserve d symInfo s v h
  | Comment => cases datum <;> exact h
  | Punctuation => cases datum <;> exact h
  | PlainText => cases datum <;> exact h
  | TagName => cases datum <;> exact h
  | TagAttrName => cases datum <;> exact h
  | EndTagName => cases datum <;> exact h
  | RegularExpressionLiteral => cases datum <;> exact h
  | Newline => cases datum <;> exact h

theorem formatStep_symInfo_preserve (jumps : List (String × Jump))
    (path : String) (input : List Char) (st : FormatState) (t : Token)
    (s : String) (v : Json) (h : st.genSymInfo.lookup s = some v) :
    (formatStep jumps path input st t).genSymInfo.lookup s = some v := by
  rcases t with ⟨k, ts, te⟩
  cases k <;>
    simp only [formatStep] <;>
    first
      | exact h
      | exact tokenDataSel_symInfo_preserve jumps path st.curLine _ _
          st.nestingStack st.startsNest st.genSymInfo st.genJson s v h
      | (split
          <;> exact tokenDataSel_symInfo_preserve jumps path st.curLine _ _
            st.nestingStack st.startsNest st.genSymInfo st.genJson s v h)

theorem foldl_formatStep_symInfo_preserve (jumps : List (String × Jump))
    (path : String) (input : List Char) :
    ∀ (tokens : List Token) (st : FormatState) (s : String) (v : Json),
      st.genSymInfo.lookup s = some v →
      ((tokens.foldl (formatStep jumps path input) st).genSymInfo).lookup s
        = some v := by
  intro tokens
  induction tokens with
  | nil => intro st s v h; exact h
  | cons t rest ih =>
    intro st s v h
    exact ih (formatStep jumps path input st t) s v
      (formatStep_symInfo_preserve jumps path input st t s v h)

/-- C9: a `no_crossref` source with type `ty` and canonical symbol `s` not
yet recorded inserts `s` into the symbol-info table bound to its object,
which carries `"type": ty`; any later sources processed by the same
per-source loop never duplicate or overwrite the binding, and neither does
any further sequence of tokens processed by the step
function of `format_code`. -/
theorem sym_info_once (a : AnalysisSource) (ty s : String)
    (m : List (String × Json)) (later : List AnalysisSource)
    (hn : a.no_crossref = true) (ht : a.type_pretty = some ty)
    (hs : a.sym.head? = some s) (habs : (m.lookup s).isNone) :
    (updateSymInfo m a).lookup s = some (symObjOf a)
    ∧ ((later.foldl updateSymInfo (updateSymInfo m a)).lookup s
        = some (symObjOf a))
    ∧ lookupField (symObjOf a) ("type") = some (Json.str ty)
    ∧ ∀ (jumps : List (String × Jump)) (path : String) (input : List Char)
        (tokens : List Token) (st : FormatState),
        st.genSymInfo.lookup s = some (symObjOf a) →
        ((tokens.foldl (formatStep jumps path input) st).genSymInfo).lookup s
          = some (symObjOf a) := by
  have hins := updateSymInfo_insert m a ty s hn ht hs habs
  refine ⟨hins, foldl_updateSymInfo_preserve later _ s _ hins, ?_, ?_⟩
  · cases hk : get_syntax_kind a <;>
      simp [symObjOf, lookupField, ht, hk, List.lookup]
  · intro jumps path input tokens st hst
    exact foldl_formatStep_symInfo_preserve jumps path input tokens st s _ hst

/-- Witness for C9: `fooTypedSrc` (type `Foo`, symbol `s1`) inserted into
an empty table survives a later occurrence of `s1` carrying type `Bar`. -/
theorem sym_info_once_witness :
    fooTypedSrc.no_crossref = true
    ∧ fooTypedSrc.type_pretty = some "Foo"
    ∧ fooTypedSrc.sym.head? = some "s1"
    ∧ (((List.nil : List (String × Json)).lookup ("s1")).isNone)
    ∧ (updateSymInfo [] fooTypedSrc).lookup ("s1")
        = some (symObjOf fooTypedSrc)
    ∧ (([barTypedSrc].foldl updateSymInfo
          (updateSymInfo [] fooTypedSrc)).lookup ("s1")
        = some (symObjOf fooTypedSrc))
    ∧ lookupField (symObjOf fooTypedSrc) ("type") = some (Json.str ("Foo")) := by
  have h := sym_info_once fooTypedSrc ("Foo") ("s1") [] [barTypedSrc]
    rfl rfl rfl (by simp [List.lookup])
  exact ⟨rfl, rfl, rfl, by simp [List.lookup], h.1, h.2.1, h.2.2.1⟩

theorem escChar_ne_nil (c : Char) : escChar c ≠ [] := by
  unfold escChar
  split
  · simp
  · split <;> simp

theorem entity_replace_ne_nil (s : List Char) (h : s ≠ []) :
    entity_replace s ≠ [] := by
  cases s with
  | nil => exact absurd rfl h
  | cons c rest =>
    unfold entity_replace
    rw [List.map_cons, List.flatten_cons]
    intro hcontra
    exact escChar_ne_nil c (List.append_eq_nil.mp hcontra).1

theorem slice_length (input : List Char) (a b : Nat) (hb : b ≤ input.length) :
    (slice input a b).length = b - a := by
  unfold slice
  rw [List.length_drop, List.length_take]
  omega

theorem slice_self (input : List Char) (i : Nat) : slice input i i = [] := by
  unfold slice
  apply List.drop_eq_nil_of_le
  rw [List.length_take]
  omega

theorem formatStep_plain_fields (jumps : List (String × Jump)) (path : String)
    (input : List Char) (st : FormatState) (ts te : Nat) :
    (formatStep jumps path input st
        { kind := .PlainText, start := ts, stop := te }).last = te
    ∧ (formatStep jumps path input st
        { kind := .PlainText, start := ts, stop := te }).output
      = st.output ++ entity_replace (slice input st.last te)
    ∧ (formatStep jumps path input st
        { kind := .PlainText, start := ts, stop := te }).outputLines
      = st.outputLines := by
  refine ⟨?_, ?_, ?_⟩ <;> simp [formatStep, linkify_comment]

theorem formatStep_newline_fields (jumps : List (String × Jump))
    (path : String) (input : List Char) (st : FormatState) (ts te : Nat) :
    (formatStep jumps path input st
        { kind := .Newline, start := ts, stop := te }).last = te
    ∧ (formatStep jumps path input st
        { kind := .Newline, start := ts, stop := te }).output = []
    ∧ (formatStep jumps path input st
        { kind := .Newline, start := ts, stop := te }).outputLines.length
      = st.outputLines.length + 1 := by
  refine ⟨rfl, rfl, ?_⟩
  simp [formatStep]

theorem plain_fold_spec (jumps : List (String × Jump)) (path : String)
    (input : List Char) :
    ∀ (cs : List Char) (i ls : Nat) (st : FormatState),
      st.last = ls → st.output = [] → ls ≤ i → i + cs.length = input.length →
      ((tokenize_plain_go cs i ls).foldl (formatStep jumps path input)
          st).last = input.length
      ∧ (((tokenize_plain_go cs i ls).foldl (formatStep jumps path input)
            st).output = [] ↔ tailLineLen (i - ls) cs = 0)
      ∧ ((tokenize_plain_go cs i ls).foldl (formatStep jumps path input)
            st).outputLines.length
        = st.outputLines.length + cs.count '\n' := by
  intro cs
  induction cs with
  | nil =>
    intro i ls st hlast hout hle hlen
    simp only [List.length_nil, Nat.add_zero] at hlen
    unfold tokenize_plain_go
    by_cases hlt : ls < i
    · rw [if_pos hlt, List.foldl_cons, List.foldl_nil]
      obtain ⟨f1, f2, f3⟩ := formatStep_plain_fields jumps path input st ls i
      refine ⟨by rw [f1, hlen], ?_, by rw [f3]; simp⟩
      rw [f2, hout, hlast, List.nil_append]
      have hne : entity_replace (slice input ls i) ≠ [] := by
        apply entity_replace_ne_nil
        intro hsl
        have := slice_length input ls i (by omega)
        rw [hsl] at this
        simp at this
        omega
      simp only [tailLineLen]
      exact iff_of_false hne (by omega)
    · rw [if_neg hlt, List.foldl_nil]
      have hls : ls = i := by omega
      refine ⟨by rw [hlast, hls, hlen], ?_, by simp⟩
      rw [hout]
      simp only [tailLineLen]
      constructor
      · intro _; omega
      · intro _; trivial
  | cons c cs ih =>
    intro i ls st hlast hout hle hlen
    simp only [List.length_cons] at hlen
    unfold tokenize_plain_go
    by_cases hc : c = '\n'
    · rw [if_pos hc]
      by_cases hlt : ls < i
      · rw [if_pos hlt]
        simp only [List.cons_append, List.nil_append, List.foldl_cons]
        obtain ⟨p1, p2, p3⟩ := formatStep_plain_fields jumps path input st ls i
        obtain ⟨n1, n2, n3⟩ := formatStep_newline_fields jumps path input
          (formatStep jumps path input st
            { kind := .PlainText, start := ls, stop := i }) i (i + 1)
        have ihres := ih (i + 1) (i + 1)
          (formatStep jumps path input
            (formatStep jumps path input st
              { kind := .PlainText, start := ls, stop := i })
            { kind := .Newline, start := i, stop := i + 1 })
          n1 n2 (le_refl (i + 1)) (by omega)
        refine ⟨ihres.1, ?_, ?_⟩
        · have heq : tailLineLen (i - ls) (c :: cs) = tailLineLen 0 cs := by
            simp [tailLineLen, hc]
          rw [heq]
          have h0 : i + 1 - (i + 1) = 0 := by omega
          rw [h0] at ihres
          exact ihres.2.1
        · rw [ihres.2.2, n3, p3]
          rw [hc]
          simp [List.count_cons]
          omega
      · rw [if_neg hlt]
        simp only [List.nil_append, List.foldl_cons]
        obtain ⟨n1, n2, n3⟩ := formatStep_newline_fields jumps path input st
          i (i + 1)
        have ihres := ih (i + 1) (i + 1)
          (formatStep jumps path input st
            { kind := .Newline, start := i, stop := i + 1 })
          n1 n2 (le_refl (i + 1)) (by omega)
        refine ⟨ihres.1, ?_, ?_⟩
        · have heq : tailLineLen (i - ls) (c :: cs) = tailLineLen 0 cs := by
            simp [tailLineLen, hc]
          rw [heq]
          have h0 : i + 1 - (i + 1) = 0 := by omega
          rw [h0] at ihres
          exact ihres.2.1
        · rw [ihres.2.2, n3]
          rw [hc]
          simp [List.count_cons]
          omega
    · rw [if_neg hc]
      have ihres := ih (i + 1) ls st hlast hout (by omega) (by omega)
      refine ⟨ihres.1, ?_, ?_⟩
      · have heq : tailLineLen (i - ls) (c :: cs)
            = tailLineLen (i + 1 - ls) cs := by
          simp only [tailLineLen, if_neg hc]
          congr 1
          omega
        rw [heq]
        exact ihres.2.1
      · rw [ihres.2.2]
        have : (c :: cs).count '\n' = cs.count '\n' := by
          simp [List.count_cons, hc]
        rw [this]

theorem checkTokens_tokenize_plain_go :
    ∀ (cs : List Char) (i ls lastPos : Nat), lastPos ≤ ls → ls ≤ i →
      checkTokensFrom lastPos (tokenize_plain_go cs i ls) = true := by
  intro cs
  induction cs with
  | nil =>
    intro i ls lastPos h1 h2
    unfold tokenize_plain_go
    by_cases hlt : ls < i
    · rw [if_pos hlt]
      simp [checkTokensFrom]
      omega
    · rw [if_neg hlt]
      rfl
  | cons c cs ih =>
    intro i ls lastPos h1 h2
    unfold tokenize_plain_go
    by_cases hc : c = '\n'
    · rw [if_pos hc]
      by_cases hlt : ls < i
      · rw [if_pos hlt]
        simp only [List.cons_append, List.nil_append, checkTokensFrom]
        simp only [Bool.and_eq_true, decide_eq_true_eq]
        exact ⟨⟨by omega, by omega⟩, ⟨by omega, by omega⟩,
          ih (i + 1) (i + 1) (i + 1) (le_refl _) (le_refl _)⟩
      · rw [if_neg hlt]
        simp only [List.nil_append, checkTokensFrom]
        simp only [Bool.and_eq_true, decide_eq_true_eq]
        exact ⟨⟨by omega, by omega⟩,
          ih (i + 1) (i + 1) (i + 1) (le_refl _) (le_refl _)⟩
    · rw [if_neg hc]
      exact ih (i + 1) ls lastPos h1 (by omega)

theorem tailLineLen_zero :
    ∀ (s : List Char) (p : Nat),
      tailLineLen p s = 0 ↔
        (if s = [] then p = 0 else endsWithUnterminatedLine s = false) := by
  intro s
  induction s with
  | nil => intro p; simp [tailLineLen]
  | cons c cs ih =>
    intro p
    cases cs with
    | nil =>
      by_cases hc : c = '\n' <;>
        simp [tailLineLen, hc, endsWithUnterminatedLine]
    | cons c2 cs2 =>
      have hlast : endsWithUnterminatedLine (c :: c2 :: cs2)
          = endsWithUnterminatedLine (c2 :: cs2) := by
        unfold endsWithUnterminatedLine
        rw [List.getLast?_cons_cons]
      by_cases hc : c = '\n'
      · rw [show tailLineLen p (c :: c2 :: cs2) = tailLineLen 0 (c2 :: cs2) by
            simp [tailLineLen, hc]]
        rw [ih 0]
        simp [hlast]
      · rw [show tailLineLen p (c :: c2 :: cs2)
              = tailLineLen (p + 1) (c2 :: cs2) by
            simp [tailLineLen, hc]]
        rw [ih (p + 1)]
        simp [hlast]

theorem finalize_length (input : List Char) (diffable : Bool)
    (st : FormatState) (hl : st.last = input.length) :
    (finalizeFormat input diffable st).1.length
      = st.outputLines.length + (if st.output = [] then 0 else 1) := by
  unfold finalizeFormat
  dsimp only
  rw [hl, slice_self, show entity_replace [] = [] from rfl, List.append_nil]
  by_cases ho : st.output = []
  · rw [ho]
    simp
  · rw [if_pos (List.length_pos.mpr ho), if_neg ho]
    simp

/-- C1: for every input text (tokenized by the plain tokenizer) and any
analysis data, `format_code` returns one `FormattedLine` per
newline-terminated line of the text plus exactly one more entry iff the
text ends with a non-empty unterminated final line. -/
theorem format_code_line_count (jumps : List (String × Jump)) (path : String)
    (input : List Char) (analysis : AnalysisList) :
    (format_code jumps (tokenize_plain input) path input analysis false).map
        (fun r => r.1.length)
      = some (input.count '\n'
          + (if endsWithUnterminatedLine input then 1 else 0)) := by
  have hck : checkTokens (tokenize_plain input) = true :=
    checkTokens_tokenize_plain_go input 0 0 0 (le_refl 0) (le_refl 0)
  have hfold := plain_fold_spec jumps path input input 0 0 (initState analysis)
    rfl rfl (le_refl 0) (by simp)
  unfold format_code
  rw [if_pos hck]
  have hstep :
      Option.map (fun r : List FormattedLine × String × String => r.1.length)
        (some (finalizeFormat input false
          ((tokenize_plain input).foldl (formatStep jumps path input)
            (initState analysis))))
      = some ((finalizeFormat input false
          ((tokenize_plain_go input 0 0).foldl (formatStep jumps path input)
            (initState analysis))).1.length) := rfl
  rw [hstep]
  congr 1
  rw [finalize_length input false _ hfold.1, hfold.2.2]
  have hiff := hfold.2.1
  rw [Nat.sub_self] at hiff
  have hbr := tailLineLen_zero input 0
  have hinit : (initState analysis).outputLines.length = 0 := rfl
  rw [hinit]
  by_cases hterm : endsWithUnterminatedLine input = true
  · have hne : ((tokenize_plain_go input 0 0).foldl
        (formatStep jumps path input) (initState analysis)).output ≠ [] := by
      rw [Ne, hiff, hbr]
      intro hcontra
      by_cases hin : input = []
      · rw [hin] at hterm
        exact absurd hterm (by decide)
      · rw [if_neg hin] at hcontra
        rw [hterm] at hcontra
        cases hcontra
    rw [if_neg hne, if_pos hterm]
    omega
  · have hyes : ((tokenize_plain_go input 0 0).foldl
        (formatStep jumps path input) (initState analysis)).output = [] := by
      rw [hiff, hbr]
      by_cases hin : input = []
      · rw [if_pos hin]
      · rw [if_neg hin]
        exact Bool.not_eq_true _ ▸ (by simpa using hterm)
    rw [if_pos hyes, if_neg hterm]
    omega

/-- C6: for every positive coverage count the rendered cell carries the
class `cov-log10-B` where `B` is the integer base-10 logarithm (the floor
of log10, as witnessed by `10 ^ B <= N < 10 ^ (B + 1)`) and the label shows
the count itself below 1000, else the count divided by 1000 (truncated)
with a `k` suffix; concretely, count 5 renders bucket 0 with label
`hit 5`, and count 1500 renders bucket 3 with label `hit 1k`. -/
theorem coverage_log10_bucket :
    (∀ x : Int, 0 < x →
        covBucket x = Nat.log 10 x.toNat
        ∧ (10 : Nat) ^ covBucket x ≤ x.toNat
        ∧ x.toNat < 10 ^ (covBucket x + 1)
        ∧ coverageCell (some [x]) 0 = covHitCell x)
    ∧ coverageCell (some [5]) 0 =
        " class=\"cov-strip cov-hit cov-known cov-log10-0\" role=\"button\" aria-label=\"hit 5\" data-coverage=\"5\""
    ∧ coverageCell (some [1500]) 0 =
        " class=\"cov-strip cov-hit cov-known cov-log10-3\" role=\"button\" aria-label=\"hit 1k\" data-coverage=\"1500\"" :=
  ⟨coverage_bucket_gen, coverage_concrete_five, coverage_concrete_k⟩


/-- Witness for C6 at coverage count 7, discharging the positivity
hypothesis. -/
theorem coverage_log10_bucket_witness :
    (0 : Int) < 7
    ∧ (covBucket 7 = Nat.log 10 (7 : Int).toNat
       ∧ (10 : Nat) ^ covBucket 7 ≤ (7 : Int).toNat
       ∧ (7 : Int).toNat < 10 ^ (covBucket 7 + 1)
       ∧ coverageCell (some [7]) 0 = covHitCell 7) :=
  ⟨by decide, coverage_log10_bucket.1 7 (by decide)⟩

/-- Witness for C10 at a token with `start > end`. -/
theorem token_assertions_witness :
    checkTokens [badToken] = false
    ∧ format_code [] [badToken] ("p") [] [] false = none :=
  ⟨by decide, token_assertions.2 [] [badToken] ("p") [] [] false (by decide)⟩

end Mozsearch
